import Mathlib

/-!
Hetzner DNS provider: the reconciliation engine.

A shallow embedding of `provider/hetzner/hetzner.go` (the engine) over the
gateway interface declared in `provider/hetzner/client.go`, and of the requests
the HTTP client of `client.go` builds.

* Gateway calls are recorded in a chronological trace (`List Call`).  What a
  gateway answers may depend on every call it has received so far, so a gateway
  is four functions of the history.
* A Go `error` is a message; a function returning `error` returns an `Outcome`,
  which also records a run-time panic (index out of range).
* The closure passed to `forEachRecordDo` mutates a captured variable; here it
  is a state transformer on an accumulator.
* Pointers are taken to be non-nil (`*plan.Changes`, `*endpoint.Endpoint`, and
  the results a gateway returns together with a nil error).
-/

namespace Hetzner

/-! ## Data model (`client.go`) -/

/-- A Go `error` value, identified with its message. -/
abbrev Error := String

/-- Go `type Zone struct`. -/
structure Zone where
  Id : String
  Name : String
deriving DecidableEq, Repr

/-- Go `type Record struct`; the field `Type` is spelled `Typ` (reserved word),
the two `time.Time` stamps are abstract integers. -/
structure Record where
  Typ : String
  Id : String
  Created : Int
  Modified : Int
  ZoneId : String
  Name : String
  Value : String
  Ttl : Int
deriving DecidableEq, Repr

/-- Go `type AllZones struct`. -/
structure AllZones where
  Zones : List Zone
deriving DecidableEq, Repr

/-- Go `type AllRecords struct`. -/
structure AllRecords where
  Records : List Record
deriving DecidableEq, Repr

/-- Go `type GetAllRecordsParams struct` (`page *int`, `zone string`). -/
structure GetAllRecordsParams where
  page : Option Int
  zone : String
deriving DecidableEq, Repr

/-- Go `type CreateRecordParams struct` (`Ttl *int`). -/
structure CreateRecordParams where
  ZoneId : String
  Typ : String
  Name : String
  Value : String
  Ttl : Option Int
deriving DecidableEq, Repr

/-- One call on the `hetznerAPI` interface, with its arguments. -/
inductive Call where
  | GetAllZones
  | GetAllRecords (params : GetAllRecordsParams)
  | DeleteRecord (id : String)
  | CreateRecord (request : CreateRecordParams)
deriving DecidableEq, Repr

/-- Go `type hetznerAPI interface`.  Each method receives the calls made before
it, so that any gateway behaviour (stateful, failing at any point) is covered. -/
structure hetznerAPI where
  GetAllZones : List Call → Except Error AllZones
  GetAllRecords : List Call → GetAllRecordsParams → Except Error AllRecords
  DeleteRecord : List Call → String → Option Error
  CreateRecord : List Call → CreateRecordParams → Option Error

/-! ## Inbound types (`endpoint`, `plan`) -/

/-- Modelled from the spec: `endpoint.Endpoint` is declared outside `src/`; the
spec gives it as `Endpoint{dnsName, recordType, targets, ttl}`. -/
structure Endpoint where
  DNSName : String
  Targets : List String
  RecordType : String
  RecordTTL : Int
deriving DecidableEq, Repr

/-- Modelled from the spec: `plan.Changes` is declared outside `src/`; the spec
gives it as four ordered sequences `Delete`, `Create`, `UpdateOld`,
`UpdateNew` of endpoints. -/
structure Changes where
  Create : List Endpoint
  UpdateOld : List Endpoint
  UpdateNew : List Endpoint
  Delete : List Endpoint
deriving DecidableEq, Repr

/-- Modelled from the spec: `provider.SupportedRecordType` is declared outside
`src/`; the spec only says that the walk filters "to provider-supported record
types".  General theorems take the predicate as the parameter `supported`; this
instance, which accepts `A`, `AAAA`, `CNAME`, `SRV`, `TXT` and `NS`, only serves
evaluations at concrete inputs, whose records all have type `A`. -/
def SupportedRecordType (recordType : String) : Bool :=
  recordType = "A" || recordType = "AAAA" || recordType = "CNAME" ||
    recordType = "SRV" || recordType = "TXT" || recordType = "NS"

/-! ## The engine (`hetzner.go`) -/

/-- How a Go function of result type `error` ends. -/
inductive Outcome where
  | nil
  | err (e : Error)
  | panic
deriving DecidableEq, Repr

/-- Go `type Key struct { Name, Type string }`. -/
structure Key where
  Name : String
  Typ : String
deriving DecidableEq, Repr

/-- Go `map[Key]Record`, as a partial function. -/
abbrev Dict := Key → Option Record

/-- The empty map `map[Key]Record{}`. -/
def Dict.empty : Dict := fun _ => none

/-- Map assignment `dic[k] = record`. -/
def Dict.set (dic : Dict) (k : Key) (record : Record) : Dict :=
  fun k' => if k' = k then some record else dic k'

/-- Go `HetznerProvider.getAllZones`. -/
def getAllZones (api : hetznerAPI) (tr : List Call) :
    List Call × Except Error (List Zone) :=
  match api.GetAllZones tr with
  | .error e => (tr ++ [Call.GetAllZones], .error e)
  | .ok zones => (tr ++ [Call.GetAllZones], .ok zones.Zones)

/-- Go `HetznerProvider.getAllRecordsForZone`: one listing call for the zone's
ID; the records are copied one by one into the result. -/
def getAllRecordsForZone (api : hetznerAPI) (zone : Zone) (tr : List Call) :
    List Call × Except Error (List Record) :=
  let params : GetAllRecordsParams := { page := none, zone := zone.Id }
  match api.GetAllRecords tr params with
  | .error e => (tr ++ [Call.GetAllRecords params], .error e)
  | .ok records =>
    (tr ++ [Call.GetAllRecords params],
      .ok (records.Records.foldl (fun result record => result ++ [record]) []))

/-- The inner loop of `forEachRecordDo` (`for _, record := range records`). -/
def forEachRecordDo_records {α : Type} (supported : String → Bool) (zone : Zone)
    (action : String → Record → α → α) : List Record → α → α
  | [], acc => acc
  | record :: rest, acc =>
    if supported record.Typ then
      let name := record.Name ++ "." ++ zone.Name
      let name := if record.Name = "@" then zone.Name else name
      forEachRecordDo_records supported zone action rest (action name record acc)
    else
      forEachRecordDo_records supported zone action rest acc

/-- The outer loop of `forEachRecordDo` (`for _, zone := range zones`). -/
def forEachRecordDo_zones {α : Type} (supported : String → Bool) (api : hetznerAPI)
    (action : String → Record → α → α) :
    List Zone → List Call → α → List Call × α × Option Error
  | [], tr, acc => (tr, acc, none)
  | zone :: rest, tr, acc =>
    match getAllRecordsForZone api zone tr with
    | (tr', .error e) => (tr', acc, some e)
    | (tr', .ok records) =>
      forEachRecordDo_zones supported api action rest tr'
        (forEachRecordDo_records supported zone action records acc)

/-- Go `HetznerProvider.forEachRecordDo`.  Returns the trace, the state the
action has built, and the error (`none` for nil). -/
def forEachRecordDo {α : Type} (supported : String → Bool) (api : hetznerAPI)
    (action : String → Record → α → α) (tr : List Call) (acc : α) :
    List Call × α × Option Error :=
  match getAllZones api tr with
  | (tr', .error e) => (tr', acc, some e)
  | (tr', .ok zones) => forEachRecordDo_zones supported api action zones tr' acc

/-- Go `HetznerProvider.deleteDelete`. -/
def deleteDelete (api : hetznerAPI) (dict : Dict) :
    List Endpoint → List Call → List Call × Outcome
  | [], tr => (tr, Outcome.nil)
  | toDelete :: rest, tr =>
    match dict { Typ := toDelete.RecordType, Name := toDelete.DNSName } with
    | none => (tr, Outcome.err "could not find record to delete")
    | some record =>
      match api.DeleteRecord tr record.Id with
      | some e => (tr ++ [Call.DeleteRecord record.Id], Outcome.err e)
      | none => deleteDelete api dict rest (tr ++ [Call.DeleteRecord record.Id])

/-- Go `HetznerProvider.createEndpoints`.  `toCreate.Targets[0]` is evaluated
before the call and panics on an empty target list. -/
def createEndpoints (api : hetznerAPI) :
    List Endpoint → List Call → List Call × Outcome
  | [], tr => (tr, Outcome.nil)
  | toCreate :: rest, tr =>
    match toCreate.Targets with
    | [] => (tr, Outcome.panic)
    | target0 :: _ =>
      let request : CreateRecordParams :=
        { Typ := toCreate.RecordType, ZoneId := "", Name := toCreate.DNSName,
          Value := target0, Ttl := none }
      match api.CreateRecord tr request with
      | some e => (tr ++ [Call.CreateRecord request], Outcome.err e)
      | none => createEndpoints api rest (tr ++ [Call.CreateRecord request])

/-- The closure `ApplyChanges` hands to `forEachRecordDo`:
`dic[Key{Type: record.Type, Name: name}] = record`. -/
def indexAction (name : String) (record : Record) (dic : Dict) : Dict :=
  dic.set { Typ := record.Typ, Name := name } record

/-- Go `HetznerProvider.ApplyChanges`: the trace of gateway calls and how the
function ends.  Both `append(changes.Delete, ...)` results are used before the
next one is built, so sharing a backing array does not show; `changes.Create`
is never read. -/
def ApplyChanges (supported : String → Bool) (api : hetznerAPI) (changes : Changes) :
    List Call × Outcome :=
  match forEachRecordDo supported api indexAction [] Dict.empty with
  | (tr, _, some e) => (tr, Outcome.err e)
  | (tr, dic, none) =>
    let endpointsToDelete := changes.Delete ++ changes.UpdateOld
    let afterDelete :=
      if endpointsToDelete.length = 0 then (tr, Outcome.nil)
      else deleteDelete api dic endpointsToDelete tr
    match afterDelete with
    | (tr', Outcome.nil) =>
      let endpointsToCreate := changes.Delete ++ changes.UpdateNew
      if endpointsToCreate.length = 0 then (tr', Outcome.nil)
      else createEndpoints api endpointsToCreate tr'
    | (tr', out) => (tr', out)

/-! ## Concrete gateways and inputs used in evaluations -/

/-- What a provider holds at the start of a pass: its zones and, per zone ID,
the records of the zone. -/
structure Snapshot where
  zones : List Zone
  records : String → List Record

/-- A gateway that serves a snapshot and accepts every mutation. -/
def Snapshot.api (S : Snapshot) : hetznerAPI where
  GetAllZones := fun _ => .ok { Zones := S.zones }
  GetAllRecords := fun _ params => .ok { Records := S.records params.zone }
  DeleteRecord := fun _ _ => none
  CreateRecord := fun _ _ => none

/-- The provider state of `TestHetznerProvider_ApplyChanges`: zone `example.de`
holding the `A` record `test` with ID `id-to-delete`. -/
def testSnapshot : Snapshot where
  zones := [{ Id := "", Name := "example.de" }]
  records := fun _ =>
    [{ Typ := "A", Id := "id-to-delete", Created := 0, Modified := 0, ZoneId := "",
       Name := "test", Value := "", Ttl := 0 }]

/-- The `Changes` of `TestHetznerProvider_ApplyChanges`: one `Delete` endpoint,
no targets. -/
def testChanges : Changes where
  Create := []
  UpdateOld := []
  UpdateNew := []
  Delete := [{ DNSName := "test.example.de", Targets := [], RecordType := "A", RecordTTL := 0 }]

/-- A gateway that serves a snapshot and answers every mutation with the error
`e`. -/
def Snapshot.rejectingApi (S : Snapshot) (e : Error) : hetznerAPI where
  GetAllZones := fun _ => .ok { Zones := S.zones }
  GetAllRecords := fun _ params => .ok { Records := S.records params.zone }
  DeleteRecord := fun _ _ => some e
  CreateRecord := fun _ _ => some e

/-- A gateway that serves a snapshot except for the zone with ID `zoneId`, whose
record listing fails with the error `e`. -/
def Snapshot.failingZoneApi (S : Snapshot) (zoneId : String) (e : Error) : hetznerAPI where
  GetAllZones := fun _ => .ok { Zones := S.zones }
  GetAllRecords := fun _ params =>
    if params.zone = zoneId then .error e else .ok { Records := S.records params.zone }
  DeleteRecord := fun _ _ => none
  CreateRecord := fun _ _ => none

/-- Two nested zones, `example.com` and `sub.example.com`, without records. -/
def nestedSnapshot : Snapshot where
  zones := [{ Id := "z1", Name := "example.com" }, { Id := "z2", Name := "sub.example.com" }]
  records := fun _ => []

/-- One explicit creation and one explicit deletion, both with a target. -/
def createAndDeleteChanges : Changes where
  Create := [{ DNSName := "new.example.de", Targets := ["5.6.7.8"], RecordType := "A",
               RecordTTL := 300 }]
  UpdateOld := []
  UpdateNew := []
  Delete := [{ DNSName := "test.example.de", Targets := ["1.2.3.4"], RecordType := "A",
               RecordTTL := 300 }]

/-- The new side of an update below the nested zone. -/
def nestedCreateChanges : Changes where
  Create := []
  UpdateOld := []
  UpdateNew := [{ DNSName := "a.sub.example.com", Targets := ["1.2.3.4"], RecordType := "A",
                  RecordTTL := 300 }]
  Delete := []

/-- The new side of an update whose name lies in no zone of `testSnapshot`. -/
def foreignCreateChanges : Changes where
  Create := []
  UpdateOld := []
  UpdateNew := [{ DNSName := "a.other.org", Targets := ["1.2.3.4"], RecordType := "A",
                  RecordTTL := 300 }]
  Delete := []

/-- An update in place: the same name and type on the old and the new side. -/
def updateChanges : Changes where
  Create := []
  UpdateOld := [{ DNSName := "test.example.de", Targets := ["1.2.3.4"], RecordType := "A",
                  RecordTTL := 300 }]
  UpdateNew := [{ DNSName := "test.example.de", Targets := ["9.9.9.9"], RecordType := "A",
                  RecordTTL := 300 }]
  Delete := []

/-- One explicit deletion of a name the provider does not hold. -/
def missingChanges : Changes where
  Create := []
  UpdateOld := []
  UpdateNew := []
  Delete := [{ DNSName := "missing.example.de", Targets := [], RecordType := "A",
               RecordTTL := 0 }]

/-- The empty `Changes`. -/
def emptyChanges : Changes where
  Create := []
  UpdateOld := []
  UpdateNew := []
  Delete := []

/-- The one record of `testSnapshot`. -/
def testRecord : Record :=
  { Typ := "A", Id := "id-to-delete", Created := 0, Modified := 0, ZoneId := "",
    Name := "test", Value := "", Ttl := 0 }

/-! ## Observations on traces -/

/-- The call is a `DeleteRecord`. -/
def Call.isDelete : Call → Bool
  | Call.DeleteRecord _ => true
  | _ => false

/-- The call is a `CreateRecord`. -/
def Call.isCreate : Call → Bool
  | Call.CreateRecord _ => true
  | _ => false

/-- The call mutates the provider. -/
def Call.isMutation (c : Call) : Bool := c.isDelete || c.isCreate

/-- The error, if any, the gateway answers when `c` is called after `history`. -/
def hetznerAPI.failure (api : hetznerAPI) (history : List Call) : Call → Option Error
  | Call.GetAllZones =>
    match api.GetAllZones history with
    | .error e => some e
    | .ok _ => none
  | Call.GetAllRecords params =>
    match api.GetAllRecords history params with
    | .error e => some e
    | .ok _ => none
  | Call.DeleteRecord id => api.DeleteRecord history id
  | Call.CreateRecord request => api.CreateRecord history request

/-- No call of the trace was answered with an error. -/
def AllOk (api : hetznerAPI) (tr : List Call) : Prop :=
  ∀ pre c post, tr = pre ++ c :: post → api.failure pre c = none

/-- Either no call of the trace failed, or exactly the last one did and its
error is the outcome. -/
def Ended (api : hetznerAPI) (tr : List Call) (out : Outcome) : Prop :=
  AllOk api tr ∨
    ∃ tr0 c e, tr = tr0 ++ [c] ∧ AllOk api tr0 ∧ api.failure tr0 c = some e ∧
      out = Outcome.err e

/-- The gateway answers every read from the snapshot as long as no mutation has
been issued. -/
def Serves (api : hetznerAPI) (S : Snapshot) : Prop :=
  ∀ tr, (∀ c ∈ tr, Call.isMutation c = false) →
    api.GetAllZones tr = .ok { Zones := S.zones } ∧
    ∀ params, api.GetAllRecords tr params = .ok { Records := S.records params.zone }

/-- The action that only writes down what it is called with. -/
def collect (name : String) (record : Record) (acc : List (String × Record)) :
    List (String × Record) :=
  acc ++ [(name, record)]

/-- The `DeleteRecord` call for an endpoint that the index resolves. -/
def deleteCall (dic : Dict) (ep : Endpoint) : Option Call :=
  (dic { Typ := ep.RecordType, Name := ep.DNSName }).map (fun record => Call.DeleteRecord record.Id)

/-- The outcome that corresponds to a returned Go `error`. -/
def Outcome.ofError : Option Error → Outcome
  | none => Outcome.nil
  | some e => Outcome.err e

/-- What the walk of one zone passes to the action: for each record of a
supported type, in order, its name and the record. -/
def visitsOfZone (supported : String → Bool) (zone : Zone) (records : List Record) :
    List (String × Record) :=
  (records.filter (fun record => supported record.Typ)).map
    (fun record =>
      (if record.Name = "@" then zone.Name else record.Name ++ "." ++ zone.Name, record))

/-- What the walk of a list of zones of a snapshot passes to the action. -/
def visitsOfZones (supported : String → Bool) (S : Snapshot) : List Zone → List (String × Record)
  | [] => []
  | zone :: rest =>
    visitsOfZone supported zone (S.records zone.Id) ++ visitsOfZones supported S rest

/-- The build phase of `ApplyChanges` (its first statement): the read calls, the
index, and the error of the walk. -/
abbrev buildPhase (supported : String → Bool) (api : hetznerAPI) :
    List Call × Dict × Option Error :=
  forEachRecordDo supported api indexAction [] Dict.empty

/-! ## The read path (`hetzner.go`) -/

/-- Modelled from the spec: `endpoint.NewEndpointWithTTL` is declared outside
`src/`; the spec says the read path "maps each surviving ProviderRecord to an
`Endpoint{dnsName, type, ttl, value}`", so the four arguments become the four
fields unchanged. -/
def NewEndpointWithTTL (dnsName recordType : String) (ttl : Int) (targets : List String) :
    Endpoint :=
  { DNSName := dnsName, Targets := targets, RecordType := recordType, RecordTTL := ttl }

/-- The closure `Records` hands to `forEachRecordDo`:
`result = append(result, endpoint.NewEndpointWithTTL(name, record.Type, ttl, record.Value))`. -/
def recordsAction (name : String) (record : Record) (result : List Endpoint) : List Endpoint :=
  result ++ [NewEndpointWithTTL name record.Typ record.Ttl [record.Value]]

/-- Go `HetznerProvider.Records`: the trace of gateway calls and either the
error (with a nil slice) or the endpoints. -/
def Records (supported : String → Bool) (api : hetznerAPI) :
    List Call × Except Error (List Endpoint) :=
  match forEachRecordDo supported api recordsAction [] [] with
  | (tr, _, some e) => (tr, .error e)
  | (tr, result, none) => (tr, .ok result)

/-! ## The HTTP gateway (`client.go`) -/

/-- An `*http.Request` as far as `client.go` sets it: method, URL, the headers
added (in order) and the body, if any. -/
structure Request where
  Method : String
  URL : String
  Header : List (String × String)
  Body : Option String
deriving DecidableEq, Repr

/-- Go `type hetznerClient struct`; the `*http.Client` does the network I/O and
is not modelled. -/
structure hetznerClient where
  token : String
deriving DecidableEq, Repr

/-- Go `type HetznerConfig struct`. -/
structure HetznerConfig where
  dryRun : Bool
  Token : String
deriving DecidableEq, Repr

/-- Go `type HetznerProvider struct`, for the gateway the repository itself
constructs: `NewHetznerProvider` always stores a `*hetznerClient`.  The engine
functions above take the gateway as the parameter `api`. -/
structure HetznerProvider where
  client : hetznerClient
deriving DecidableEq, Repr

/-- How the request-building part of a gateway method ends: with the request it
hands to `httpClient.Do`, with an error returned before that, or with a panic
(a nil request dereferenced). -/
inductive Built where
  | request (req : Request)
  | failed (e : Error)
  | panic
deriving DecidableEq, Repr

/-- The standard library call `http.NewRequest(method, url, body)` on a valid
method and a URL that parses: the request with that method, URL and body and no
header. -/
def httpNewRequest (method url : String) (body : Option String) : Except Error Request :=
  .ok { Method := method, URL := url, Header := [], Body := body }

/-- Go `hetznerClient.buildRequest`: the request is made with a nil body, the
parameter `body` is not used. -/
def hetznerClient.buildRequest (h : hetznerClient) (url : String) (method : String)
    (_body : Option String) : Except Error Request :=
  match httpNewRequest method url none with
  | .error e => .error e
  | .ok req => .ok { req with Header := req.Header ++ [("Auth-API-Token", h.token)] }

/-- The request of Go `hetznerClient.GetAllZones` (the error of `buildRequest`
is overwritten; a nil request goes to `httpClient.Do`, which is not modelled). -/
def hetznerClient.GetAllZones_request (h : hetznerClient) : Except Error Request :=
  h.buildRequest "https://dns.hetzner.com/api/v1/zones" "GET" none

/-- The request of Go `hetznerClient.GetAllRecords`. -/
def hetznerClient.GetAllRecords_request (h : hetznerClient) (params : GetAllRecordsParams) :
    Except Error Request :=
  h.buildRequest ("https://dns.hetzner.com/api/v1/records?zone_id=" ++ params.zone) "GET" none

/-- The request of Go `hetznerClient.DeleteRecord`, up to `httpClient.Do`. -/
def hetznerClient.DeleteRecord_request (h : hetznerClient) (id : String) : Built :=
  match h.buildRequest ("https://dns.hetzner.com/api/v1/records?zone_id=" ++ id) "GET" none with
  | .error e => Built.failed e
  | .ok req => Built.request req

/-- The request of Go `hetznerClient.CreateRecord`, up to `httpClient.Do`;
`jsonMarshal` stands for the standard library's `json.Marshal`.  The error of
`buildRequest` is not checked before `req.Header.Add`. -/
def hetznerClient.CreateRecord_request (jsonMarshal : CreateRecordParams → Except Error String)
    (h : hetznerClient) (request : CreateRecordParams) : Built :=
  match jsonMarshal request with
  | .error e => Built.failed e
  | .ok body =>
    match h.buildRequest "https://dns.hetzner.com/api/v1/records" "POST" (some body) with
    | .error _ => Built.panic
    | .ok req =>
      Built.request { req with Header := req.Header ++ [("Content-Type", "application/json")] }

/-- Go `newHetznerClient`. -/
def newHetznerClient (token : String) : hetznerClient :=
  { token := token }

/-- Go `NewHetznerProvider` (its error result is always nil): the client is
made with the empty token, `cfg` is not used. -/
def NewHetznerProvider (_cfg : HetznerConfig) : HetznerProvider :=
  { client := newHetznerClient "" }

/-! ## Further inputs and observations -/

/-- A provider state with two `A` records named `test` in zone `example.de`,
with IDs `r1` and `r2`. -/
def duplicateSnapshot : Snapshot where
  zones := [{ Id := "z1", Name := "example.de" }]
  records := fun _ =>
    [{ Typ := "A", Id := "r1", Created := 0, Modified := 0, ZoneId := "z1", Name := "test",
       Value := "1.2.3.4", Ttl := 300 },
     { Typ := "A", Id := "r2", Created := 0, Modified := 0, ZoneId := "z1", Name := "test",
       Value := "5.6.7.8", Ttl := 300 }]

/-- The first record of `duplicateSnapshot`. -/
def duplicateFirst : Record :=
  { Typ := "A", Id := "r1", Created := 0, Modified := 0, ZoneId := "z1", Name := "test",
    Value := "1.2.3.4", Ttl := 300 }

/-- The second record of `duplicateSnapshot`. -/
def duplicateSecond : Record :=
  { Typ := "A", Id := "r2", Created := 0, Modified := 0, ZoneId := "z1", Name := "test",
    Value := "5.6.7.8", Ttl := 300 }

/-- A record of a type that `SupportedRecordType` rejects. -/
def mxRecord : Record :=
  { Typ := "MX", Id := "r-mx", Created := 0, Modified := 0, ZoneId := "z1", Name := "mail",
    Value := "10 mx.example.de", Ttl := 300 }

/-- A provider state whose only record has the unsupported type `MX`. -/
def mxSnapshot : Snapshot where
  zones := [{ Id := "z1", Name := "example.de" }]
  records := fun _ => [mxRecord]

/-- The deletion of the `MX` record of `mxSnapshot`. -/
def mxChanges : Changes where
  Create := []
  UpdateOld := []
  UpdateNew := []
  Delete := [{ DNSName := "mail.example.de", Targets := [], RecordType := "MX", RecordTTL := 0 }]

/-- The deletion of `test.example.de`, with a target. -/
def deleteTestChanges : Changes where
  Create := []
  UpdateOld := []
  UpdateNew := []
  Delete := [{ DNSName := "test.example.de", Targets := ["1.2.3.4"], RecordType := "A",
               RecordTTL := 300 }]

/-- What the walk passes to its action, in order: the names and records. -/
abbrev passed (supported : String → Bool) (api : hetznerAPI) : List (String × Record) :=
  (forEachRecordDo supported api collect [] []).2.1

/-- The endpoint `Records` makes of a visit. -/
def toEndpoint (v : String × Record) : Endpoint :=
  NewEndpointWithTTL v.1 v.2.Typ v.2.Ttl [v.2.Value]

/-- The index `ApplyChanges` builds from a list of visits. -/
def indexOf (visits : List (String × Record)) : Dict :=
  visits.foldl (fun dic v => indexAction v.1 v.2 dic) Dict.empty

/-- The call is the `CreateRecord` that `createEndpoints` issues for the
endpoint: its type, its name, its first target, the empty zone ID, no TTL. -/
def IsCreateCallOf (ep : Endpoint) (c : Call) : Prop :=
  ∃ t ts, ep.Targets = t :: ts ∧
    c = Call.CreateRecord
      { ZoneId := "", Typ := ep.RecordType, Name := ep.DNSName, Value := t, Ttl := none }

/-! ## Basic facts -/

theorem AllOk_nil (api : hetznerAPI) : AllOk api [] := by
  intro pre c post h
  simp at h

theorem AllOk_snoc {api : hetznerAPI} {tr : List Call} {c : Call}
    (h : AllOk api tr) (hc : api.failure tr c = none) : AllOk api (tr ++ [c]) := by
  intro pre d post hd
  rcases List.eq_nil_or_concat post with hp | ⟨post', b, hp⟩
  · subst hp
    have := List.append_inj' hd (by simp)
    obtain ⟨h1, h2⟩ := this
    simp at h2
    subst h1; subst h2
    exact hc
  · subst hp
    have hd' : tr ++ [c] = (pre ++ d :: post') ++ [b] := by simpa using hd
    have := List.append_inj' hd' (by simp)
    exact h pre d post' this.1

theorem AllOk_of_snoc {api : hetznerAPI} {tr : List Call} {c : Call}
    (h : AllOk api (tr ++ [c])) : AllOk api tr ∧ api.failure tr c = none := by
  refine ⟨?_, h tr c [] rfl⟩
  intro pre d post hd
  exact h pre d (post ++ [c]) (by simp [hd])

/-- Fail-fast, read off `Ended`: a failed call is the last one and its error is
the outcome. -/
theorem Ended.failfast {api : hetznerAPI} {tr : List Call} {out : Outcome}
    (h : Ended api tr out) {pre : List Call} {c : Call} {post : List Call} {e : Error}
    (htr : tr = pre ++ c :: post) (he : api.failure pre c = some e) :
    post = [] ∧ out = Outcome.err e := by
  rcases h with h | ⟨tr0, c0, e0, h0, hok, hf, hout⟩
  · have := h pre c post htr
    simp [he] at this
  · rcases List.eq_nil_or_concat post with hp | ⟨post', b, hp⟩
    · subst hp
      have h1 : tr0 ++ [c0] = pre ++ [c] := by rw [← h0, htr]
      obtain ⟨h2, h3⟩ := List.append_inj' h1 (by simp)
      simp at h3
      subst h2; subst h3
      rw [hf] at he
      simp at he
      subst he
      exact ⟨rfl, hout⟩
    · subst hp
      have h1 : tr0 ++ [c0] = (pre ++ c :: post') ++ [b] := by rw [← h0, htr]; simp
      obtain ⟨h2, _⟩ := List.append_inj' h1 (by simp)
      have := hok pre c post' h2
      simp [he] at this

/-! ## The walk -/

theorem foldl_copy (records : List Record) (result : List Record) :
    records.foldl (fun result record => result ++ [record]) result = result ++ records := by
  induction records generalizing result with
  | nil => simp
  | cons r rs ih => simp [ih]

theorem getAllRecordsForZone_ok {api : hetznerAPI} {zone : Zone} {tr : List Call}
    {records : AllRecords}
    (h : api.GetAllRecords tr { page := none, zone := zone.Id } = .ok records) :
    getAllRecordsForZone api zone tr =
      (tr ++ [Call.GetAllRecords { page := none, zone := zone.Id }], .ok records.Records) := by
  simp [getAllRecordsForZone, h, foldl_copy]

theorem getAllRecordsForZone_error {api : hetznerAPI} {zone : Zone} {tr : List Call}
    {e : Error}
    (h : api.GetAllRecords tr { page := none, zone := zone.Id } = .error e) :
    getAllRecordsForZone api zone tr =
      (tr ++ [Call.GetAllRecords { page := none, zone := zone.Id }], .error e) := by
  simp [getAllRecordsForZone, h]

/-- The inner loop folds the action over the visits of the zone. -/
theorem forEachRecordDo_records_eq {α : Type} (supported : String → Bool) (zone : Zone)
    (action : String → Record → α → α) (records : List Record) (acc : α) :
    forEachRecordDo_records supported zone action records acc =
      (visitsOfZone supported zone records).foldl (fun a v => action v.1 v.2 a) acc := by
  induction records generalizing acc with
  | nil => simp [forEachRecordDo_records, visitsOfZone]
  | cons r rs ih =>
    by_cases hs : supported r.Typ = true
    · simp only [forEachRecordDo_records, hs, if_true, ih]
      simp [visitsOfZone, hs]
    · simp only [forEachRecordDo_records, hs, ih]
      simp [visitsOfZone, hs]

theorem foldl_collect (vs : List (String × Record)) (l : List (String × Record)) :
    vs.foldl (fun a v => collect v.1 v.2 a) l = l ++ vs := by
  induction vs generalizing l with
  | nil => simp
  | cons v vs ih =>
    rw [List.foldl_cons, ih]
    simp [collect]

/-- The outer loop with any action is the outer loop with `collect`, followed
by a fold of the action over what was collected. -/
theorem forEachRecordDo_zones_collect {α : Type} (supported : String → Bool) (api : hetznerAPI)
    (action : String → Record → α → α) (zones : List Zone) (tr : List Call) (acc : α)
    (l : List (String × Record)) :
    forEachRecordDo_zones supported api action zones tr
        (l.foldl (fun a v => action v.1 v.2 a) acc) =
      ((forEachRecordDo_zones supported api collect zones tr l).1,
        (forEachRecordDo_zones supported api collect zones tr l).2.1.foldl
          (fun a v => action v.1 v.2 a) acc,
        (forEachRecordDo_zones supported api collect zones tr l).2.2) := by
  induction zones generalizing tr l with
  | nil => simp [forEachRecordDo_zones]
  | cons Z zs ih =>
    cases h : api.GetAllRecords tr { page := none, zone := Z.Id } with
    | error e => simp [forEachRecordDo_zones, getAllRecordsForZone_error h]
    | ok records =>
      simp only [forEachRecordDo_zones, getAllRecordsForZone_ok h]
      rw [forEachRecordDo_records_eq supported Z collect, foldl_collect,
        forEachRecordDo_records_eq supported Z action, ← List.foldl_append]
      exact ih _ _

/-- The walk with any action is the walk with `collect`, followed by a fold. -/
theorem forEachRecordDo_collect {α : Type} (supported : String → Bool) (api : hetznerAPI)
    (action : String → Record → α → α) (tr : List Call) (acc : α) :
    forEachRecordDo supported api action tr acc =
      ((forEachRecordDo supported api collect tr []).1,
        (forEachRecordDo supported api collect tr []).2.1.foldl
          (fun a v => action v.1 v.2 a) acc,
        (forEachRecordDo supported api collect tr []).2.2) := by
  cases h : api.GetAllZones tr with
  | error e => simp [forEachRecordDo, getAllZones, h]
  | ok zones =>
    simp only [forEachRecordDo, getAllZones, h]
    exact forEachRecordDo_zones_collect supported api action zones.Zones _ acc []

/-- The outer loop only reads. -/
theorem forEachRecordDo_zones_reads {α : Type} (supported : String → Bool) (api : hetznerAPI)
    (action : String → Record → α → α) (zones : List Zone) (tr : List Call) (acc : α) :
    ∃ reads, (forEachRecordDo_zones supported api action zones tr acc).1 = tr ++ reads ∧
      ∀ c ∈ reads, Call.isMutation c = false := by
  induction zones generalizing tr acc with
  | nil => exact ⟨[], by simp [forEachRecordDo_zones]⟩
  | cons Z zs ih =>
    cases h : api.GetAllRecords tr { page := none, zone := Z.Id } with
    | error e =>
      refine ⟨[Call.GetAllRecords { page := none, zone := Z.Id }], ?_, ?_⟩
      · simp [forEachRecordDo_zones, getAllRecordsForZone_error h]
      · simp [Call.isMutation, Call.isDelete, Call.isCreate]
    | ok records =>
      simp only [forEachRecordDo_zones, getAllRecordsForZone_ok h]
      obtain ⟨reads, h1, h2⟩ := ih (tr ++ [Call.GetAllRecords { page := none, zone := Z.Id }])
        (forEachRecordDo_records supported Z action records.Records acc)
      refine ⟨Call.GetAllRecords { page := none, zone := Z.Id } :: reads, ?_, ?_⟩
      · rw [h1]; simp
      · intro c hc
        rcases List.mem_cons.1 hc with hc | hc
        · subst hc; simp [Call.isMutation, Call.isDelete, Call.isCreate]
        · exact h2 c hc

/-- The walk only reads. -/
theorem forEachRecordDo_reads {α : Type} (supported : String → Bool) (api : hetznerAPI)
    (action : String → Record → α → α) (tr : List Call) (acc : α) :
    ∃ reads, (forEachRecordDo supported api action tr acc).1 = tr ++ reads ∧
      ∀ c ∈ reads, Call.isMutation c = false := by
  cases h : api.GetAllZones tr with
  | error e =>
    refine ⟨[Call.GetAllZones], ?_, ?_⟩
    · simp [forEachRecordDo, getAllZones, h]
    · simp [Call.isMutation, Call.isDelete, Call.isCreate]
  | ok zones =>
    simp only [forEachRecordDo, getAllZones, h]
    obtain ⟨reads, h1, h2⟩ :=
      forEachRecordDo_zones_reads supported api action zones.Zones (tr ++ [Call.GetAllZones]) acc
    refine ⟨Call.GetAllZones :: reads, ?_, ?_⟩
    · rw [h1]; simp
    · intro c hc
      rcases List.mem_cons.1 hc with hc | hc
      · subst hc; simp [Call.isMutation, Call.isDelete, Call.isCreate]
      · exact h2 c hc

theorem forEachRecordDo_zones_ended {α : Type} (supported : String → Bool) (api : hetznerAPI)
    (action : String → Record → α → α) (zones : List Zone) (tr : List Call) (acc : α)
    (h : AllOk api tr) :
    Ended api (forEachRecordDo_zones supported api action zones tr acc).1
      (Outcome.ofError (forEachRecordDo_zones supported api action zones tr acc).2.2) := by
  induction zones generalizing tr acc with
  | nil => exact Or.inl (by simpa [forEachRecordDo_zones] using h)
  | cons Z zs ih =>
    cases h' : api.GetAllRecords tr { page := none, zone := Z.Id } with
    | error e =>
      refine Or.inr ⟨tr, Call.GetAllRecords { page := none, zone := Z.Id }, e, ?_, h, ?_, ?_⟩
      · simp [forEachRecordDo_zones, getAllRecordsForZone_error h']
      · simp [hetznerAPI.failure, h']
      · simp [forEachRecordDo_zones, getAllRecordsForZone_error h', Outcome.ofError]
    | ok records =>
      simp only [forEachRecordDo_zones, getAllRecordsForZone_ok h']
      exact ih _ _ (AllOk_snoc h (by simp [hetznerAPI.failure, h']))

theorem forEachRecordDo_ended {α : Type} (supported : String → Bool) (api : hetznerAPI)
    (action : String → Record → α → α) (tr : List Call) (acc : α) (h : AllOk api tr) :
    Ended api (forEachRecordDo supported api action tr acc).1
      (Outcome.ofError (forEachRecordDo supported api action tr acc).2.2) := by
  cases h' : api.GetAllZones tr with
  | error e =>
    refine Or.inr ⟨tr, Call.GetAllZones, e, ?_, h, ?_, ?_⟩
    · simp [forEachRecordDo, getAllZones, h']
    · simp [hetznerAPI.failure, h']
    · simp [forEachRecordDo, getAllZones, h', Outcome.ofError]
  | ok zones =>
    simp only [forEachRecordDo, getAllZones, h']
    exact forEachRecordDo_zones_ended supported api action zones.Zones _ acc
      (AllOk_snoc h (by simp [hetznerAPI.failure, h']))

/-- When the outcome is not an error, no call failed. -/
theorem Ended.allOk {api : hetznerAPI} {tr : List Call} {out : Outcome}
    (h : Ended api tr out) (hout : ∀ e, out ≠ Outcome.err e) : AllOk api tr := by
  rcases h with h | ⟨_, _, e, _, _, _, he⟩
  · exact h
  · exact absurd he (hout e)

/-! ## The delete phase -/

theorem deleteDelete_ended (api : hetznerAPI) (dic : Dict) (eps : List Endpoint)
    (tr : List Call) (h : AllOk api tr) :
    Ended api (deleteDelete api dic eps tr).1 (deleteDelete api dic eps tr).2 := by
  induction eps generalizing tr with
  | nil => exact Or.inl (by simpa [deleteDelete] using h)
  | cons ep eps ih =>
    cases hk : dic { Typ := ep.RecordType, Name := ep.DNSName } with
    | none => exact Or.inl (by simpa [deleteDelete, hk] using h)
    | some record =>
      cases hd : api.DeleteRecord tr record.Id with
      | some e =>
        refine Or.inr ⟨tr, Call.DeleteRecord record.Id, e, ?_, h, ?_, ?_⟩
        · simp [deleteDelete, hk, hd]
        · simp [hetznerAPI.failure, hd]
        · simp [deleteDelete, hk, hd]
      | none =>
        simp only [deleteDelete, hk, hd]
        exact ih _ (AllOk_snoc h (by simp [hetznerAPI.failure, hd]))

/-- The delete phase only issues `DeleteRecord` calls. -/
theorem deleteDelete_trace (api : hetznerAPI) (dic : Dict) (eps : List Endpoint)
    (tr : List Call) :
    ∃ dels, (deleteDelete api dic eps tr).1 = tr ++ dels ∧
      ∀ c ∈ dels, Call.isDelete c = true := by
  induction eps generalizing tr with
  | nil => exact ⟨[], by simp [deleteDelete]⟩
  | cons ep eps ih =>
    cases hk : dic { Typ := ep.RecordType, Name := ep.DNSName } with
    | none => exact ⟨[], by simp [deleteDelete, hk]⟩
    | some record =>
      cases hd : api.DeleteRecord tr record.Id with
      | some e =>
        exact ⟨[Call.DeleteRecord record.Id], by simp [deleteDelete, hk, hd, Call.isDelete]⟩
      | none =>
        simp only [deleteDelete, hk, hd]
        obtain ⟨dels, h1, h2⟩ := ih (tr ++ [Call.DeleteRecord record.Id])
        refine ⟨Call.DeleteRecord record.Id :: dels, by rw [h1]; simp, ?_⟩
        intro c hc
        rcases List.mem_cons.1 hc with hc | hc
        · subst hc; rfl
        · exact h2 c hc

/-- The delete phase never panics. -/
theorem deleteDelete_ne_panic (api : hetznerAPI) (dic : Dict) (eps : List Endpoint)
    (tr : List Call) : (deleteDelete api dic eps tr).2 ≠ Outcome.panic := by
  induction eps generalizing tr with
  | nil => simp [deleteDelete]
  | cons ep eps ih =>
    cases hk : dic { Typ := ep.RecordType, Name := ep.DNSName } with
    | none => simp [deleteDelete, hk]
    | some record =>
      cases hd : api.DeleteRecord tr record.Id with
      | some e => simp [deleteDelete, hk, hd]
      | none =>
        simp only [deleteDelete, hk, hd]
        exact ih _

/-- A delete phase that returns nil has resolved every endpoint and has issued
one `DeleteRecord` per endpoint, in order. -/
theorem deleteDelete_nil (api : hetznerAPI) (dic : Dict) (eps : List Endpoint)
    (tr : List Call) (h : (deleteDelete api dic eps tr).2 = Outcome.nil) :
    (deleteDelete api dic eps tr).1 = tr ++ eps.filterMap (deleteCall dic) ∧
      ∀ ep ∈ eps, (deleteCall dic ep).isSome = true := by
  induction eps generalizing tr with
  | nil => simp [deleteDelete]
  | cons ep eps ih =>
    cases hk : dic { Typ := ep.RecordType, Name := ep.DNSName } with
    | none => simp [deleteDelete, hk] at h
    | some record =>
      cases hd : api.DeleteRecord tr record.Id with
      | some e => simp [deleteDelete, hk, hd] at h
      | none =>
        simp only [deleteDelete, hk, hd] at h ⊢
        obtain ⟨h1, h2⟩ := ih _ h
        refine ⟨?_, ?_⟩
        · rw [h1]
          simp [List.filterMap_cons, deleteCall, hk]
        · intro d hd'
          rcases List.mem_cons.1 hd' with hd' | hd'
          · subst hd'; simp [deleteCall, hk]
          · exact h2 d hd'

/-- An endpoint the index does not resolve stops the delete phase with an error:
`DeleteRecord` has been called only for endpoints before it. -/
theorem deleteDelete_unresolved (api : hetznerAPI) (dic : Dict) (pre : List Endpoint)
    (ep : Endpoint) (post : List Endpoint) (tr : List Call)
    (hk : dic { Typ := ep.RecordType, Name := ep.DNSName } = none) :
    ∃ done, done <+: pre ∧ (∀ d ∈ done, (deleteCall dic d).isSome = true) ∧
      (deleteDelete api dic (pre ++ ep :: post) tr).1 = tr ++ done.filterMap (deleteCall dic) ∧
      ∃ e, (deleteDelete api dic (pre ++ ep :: post) tr).2 = Outcome.err e ∧
        (AllOk api (deleteDelete api dic (pre ++ ep :: post) tr).1 →
          e = "could not find record to delete") := by
  induction pre generalizing tr with
  | nil =>
    exact ⟨[], List.nil_prefix, by simp, by simp [deleteDelete, hk],
      "could not find record to delete", by simp [deleteDelete, hk], fun _ => rfl⟩
  | cons a pre ih =>
    cases ha : dic { Typ := a.RecordType, Name := a.DNSName } with
    | none =>
      exact ⟨[], List.nil_prefix, by simp, by simp [deleteDelete, ha],
        "could not find record to delete", by simp [deleteDelete, ha], fun _ => rfl⟩
    | some record =>
      cases hd : api.DeleteRecord tr record.Id with
      | some e =>
        refine ⟨[a], by simp [List.prefix_cons_inj], by simp [deleteCall, ha],
          by simp [deleteDelete, ha, hd, deleteCall], e, by simp [deleteDelete, ha, hd], ?_⟩
        intro hok
        have hok' : AllOk api (tr ++ [Call.DeleteRecord record.Id]) := by
          simpa [deleteDelete, ha, hd] using hok
        have := (AllOk_of_snoc hok').2
        simp [hetznerAPI.failure, hd] at this
      | none =>
        obtain ⟨done, h1, h2, h3, e, h4, h5⟩ := ih (tr ++ [Call.DeleteRecord record.Id])
        refine ⟨a :: done, by simpa [List.prefix_cons_inj] using h1, ?_, ?_, e, ?_, ?_⟩
        · intro d hd'
          rcases List.mem_cons.1 hd' with hd' | hd'
          · subst hd'; simp [deleteCall, ha]
          · exact h2 d hd'
        · rw [List.cons_append]
          simp only [deleteDelete, ha, hd]
          rw [h3]
          simp [List.filterMap_cons, deleteCall, ha]
        · rw [List.cons_append]
          simpa only [deleteDelete, ha, hd] using h4
        · rw [List.cons_append]
          simpa only [deleteDelete, ha, hd] using h5

/-! ## The create phase -/

theorem createEndpoints_ended (api : hetznerAPI) (eps : List Endpoint)
    (tr : List Call) (h : AllOk api tr) :
    Ended api (createEndpoints api eps tr).1 (createEndpoints api eps tr).2 := by
  induction eps generalizing tr with
  | nil => exact Or.inl (by simpa [createEndpoints] using h)
  | cons ep eps ih =>
    cases ht : ep.Targets with
    | nil => exact Or.inl (by simpa [createEndpoints, ht] using h)
    | cons t ts =>
      cases hc : api.CreateRecord tr
          { Typ := ep.RecordType, ZoneId := "", Name := ep.DNSName, Value := t, Ttl := none } with
      | some e =>
        refine Or.inr ⟨tr, Call.CreateRecord
          { Typ := ep.RecordType, ZoneId := "", Name := ep.DNSName, Value := t, Ttl := none },
          e, ?_, h, ?_, ?_⟩
        · simp [createEndpoints, ht, hc]
        · simp [hetznerAPI.failure, hc]
        · simp [createEndpoints, ht, hc]
      | none =>
        simp only [createEndpoints, ht, hc]
        exact ih _ (AllOk_snoc h (by simp [hetznerAPI.failure, hc]))

/-- The create phase only issues `CreateRecord` calls. -/
theorem createEndpoints_trace (api : hetznerAPI) (eps : List Endpoint) (tr : List Call) :
    ∃ creates, (createEndpoints api eps tr).1 = tr ++ creates ∧
      ∀ c ∈ creates, Call.isCreate c = true := by
  induction eps generalizing tr with
  | nil => exact ⟨[], by simp [createEndpoints]⟩
  | cons ep eps ih =>
    cases ht : ep.Targets with
    | nil => exact ⟨[], by simp [createEndpoints, ht]⟩
    | cons t ts =>
      cases hc : api.CreateRecord tr
          { Typ := ep.RecordType, ZoneId := "", Name := ep.DNSName, Value := t, Ttl := none } with
      | some e =>
        exact ⟨[Call.CreateRecord
          { Typ := ep.RecordType, ZoneId := "", Name := ep.DNSName, Value := t, Ttl := none }],
          by simp [createEndpoints, ht, hc, Call.isCreate]⟩
      | none =>
        simp only [createEndpoints, ht, hc]
        obtain ⟨cs, h1, h2⟩ := ih (tr ++ [Call.CreateRecord
          { Typ := ep.RecordType, ZoneId := "", Name := ep.DNSName, Value := t, Ttl := none }])
        refine ⟨Call.CreateRecord
          { Typ := ep.RecordType, ZoneId := "", Name := ep.DNSName, Value := t, Ttl := none }
            :: cs, by rw [h1]; simp, ?_⟩
        intro c hc'
        rcases List.mem_cons.1 hc' with hc' | hc'
        · subst hc'; rfl
        · exact h2 c hc'

/-! ## `ApplyChanges` by phases -/

/-- A failed build phase ends `ApplyChanges` with the error of the walk. -/
theorem ApplyChanges_of_build_error (supported : String → Bool) (api : hetznerAPI)
    (changes : Changes) {e : Error} (h : (buildPhase supported api).2.2 = some e) :
    ApplyChanges supported api changes = ((buildPhase supported api).1, Outcome.err e) := by
  simp only [buildPhase] at h ⊢
  unfold ApplyChanges
  rcases hb : forEachRecordDo supported api indexAction [] Dict.empty with ⟨tr, dic, err⟩
  rw [hb] at h
  simp only at h
  subst h
  rfl

/-- After a build phase without error, a delete phase that does not return nil
ends `ApplyChanges`. -/
theorem ApplyChanges_of_delete_stop (supported : String → Bool) (api : hetznerAPI)
    (changes : Changes) (h : (buildPhase supported api).2.2 = none)
    (hd : (deleteDelete api (buildPhase supported api).2.1
      (changes.Delete ++ changes.UpdateOld) (buildPhase supported api).1).2 ≠ Outcome.nil) :
    ApplyChanges supported api changes =
      deleteDelete api (buildPhase supported api).2.1
        (changes.Delete ++ changes.UpdateOld) (buildPhase supported api).1 := by
  simp only [buildPhase] at h hd ⊢
  unfold ApplyChanges
  rcases hb : forEachRecordDo supported api indexAction [] Dict.empty with ⟨tr, dic, err⟩
  rw [hb] at h hd
  simp only at h hd
  subst h
  simp only
  by_cases hl : (changes.Delete ++ changes.UpdateOld).length = 0
  · have : changes.Delete ++ changes.UpdateOld = [] := List.length_eq_zero.1 hl
    rw [this] at hd
    simp [deleteDelete] at hd
  · rw [if_neg hl]
    rcases hdd : deleteDelete api dic (changes.Delete ++ changes.UpdateOld) tr with ⟨tr', out⟩
    rw [hdd] at hd
    cases out with
    | nil => exact absurd rfl hd
    | err e => rfl
    | panic => rfl

/-- After a build phase without error and a delete phase that returns nil,
`ApplyChanges` ends as the create phase over `Delete` followed by `UpdateNew`. -/
theorem ApplyChanges_of_delete_nil (supported : String → Bool) (api : hetznerAPI)
    (changes : Changes) (h : (buildPhase supported api).2.2 = none)
    (hd : (deleteDelete api (buildPhase supported api).2.1
      (changes.Delete ++ changes.UpdateOld) (buildPhase supported api).1).2 = Outcome.nil) :
    ApplyChanges supported api changes =
      createEndpoints api (changes.Delete ++ changes.UpdateNew)
        (deleteDelete api (buildPhase supported api).2.1
          (changes.Delete ++ changes.UpdateOld) (buildPhase supported api).1).1 := by
  simp only [buildPhase] at h hd ⊢
  unfold ApplyChanges
  rcases hb : forEachRecordDo supported api indexAction [] Dict.empty with ⟨tr, dic, err⟩
  rw [hb] at h hd
  simp only at h hd
  subst h
  simp only
  have key : (if (changes.Delete ++ changes.UpdateOld).length = 0 then (tr, Outcome.nil)
      else deleteDelete api dic (changes.Delete ++ changes.UpdateOld) tr) =
      deleteDelete api dic (changes.Delete ++ changes.UpdateOld) tr := by
    by_cases hl : (changes.Delete ++ changes.UpdateOld).length = 0
    · have : changes.Delete ++ changes.UpdateOld = [] := List.length_eq_zero.1 hl
      rw [this]
      simp [deleteDelete]
    · rw [if_neg hl]
  rw [key]
  rcases hdd : deleteDelete api dic (changes.Delete ++ changes.UpdateOld) tr with ⟨tr', out⟩
  rw [hdd] at hd
  simp only at hd
  subst hd
  simp only
  by_cases hl : (changes.Delete ++ changes.UpdateNew).length = 0
  · have : changes.Delete ++ changes.UpdateNew = [] := List.length_eq_zero.1 hl
    rw [this]
    simp [createEndpoints]
  · rw [if_neg hl]

/-- No call of `ApplyChanges` fails except possibly the last, whose error is
then the outcome. -/
theorem ApplyChanges_ended (supported : String → Bool) (api : hetznerAPI)
    (changes : Changes) :
    Ended api (ApplyChanges supported api changes).1 (ApplyChanges supported api changes).2 := by
  have hb := forEachRecordDo_ended supported api indexAction [] Dict.empty (AllOk_nil api)
  cases he : (buildPhase supported api).2.2 with
  | some e =>
    rw [ApplyChanges_of_build_error supported api changes he]
    simp only [buildPhase] at he
    rw [he] at hb
    exact hb
  | none =>
    have hok : AllOk api (buildPhase supported api).1 := by
      apply hb.allOk
      simp only [buildPhase] at he
      rw [he]
      simp [Outcome.ofError]
    have hd := deleteDelete_ended api (buildPhase supported api).2.1
      (changes.Delete ++ changes.UpdateOld) _ hok
    by_cases hn : (deleteDelete api (buildPhase supported api).2.1
        (changes.Delete ++ changes.UpdateOld) (buildPhase supported api).1).2 = Outcome.nil
    · rw [ApplyChanges_of_delete_nil supported api changes he hn]
      exact createEndpoints_ended api _ _ (hd.allOk (by simp [hn]))
    · rw [ApplyChanges_of_delete_stop supported api changes he hn]
      exact hd

/-- The trace of `ApplyChanges` is the reads of the build phase, then
`DeleteRecord` calls, then `CreateRecord` calls; when there is any create, the
deletes are those of the whole deletion set. -/
theorem ApplyChanges_shape (supported : String → Bool) (api : hetznerAPI)
    (changes : Changes) :
    ∃ dels creates,
      (ApplyChanges supported api changes).1 = (buildPhase supported api).1 ++ dels ++ creates ∧
      (∀ c ∈ (buildPhase supported api).1, Call.isMutation c = false) ∧
      (∀ c ∈ dels, Call.isDelete c = true) ∧
      (∀ c ∈ creates, Call.isCreate c = true) ∧
      (creates ≠ [] →
        (∀ ep ∈ changes.Delete ++ changes.UpdateOld,
          (deleteCall (buildPhase supported api).2.1 ep).isSome = true) ∧
        dels = (changes.Delete ++ changes.UpdateOld).filterMap
          (deleteCall (buildPhase supported api).2.1)) := by
  have hreads : ∀ c ∈ (buildPhase supported api).1, Call.isMutation c = false := by
    obtain ⟨reads, h1, h2⟩ := forEachRecordDo_reads supported api indexAction [] Dict.empty
    intro c hc
    simp only [buildPhase] at hc
    rw [h1] at hc
    exact h2 c (by simpa using hc)
  cases he : (buildPhase supported api).2.2 with
  | some e =>
    refine ⟨[], [], ?_, hreads, by simp, by simp, by simp⟩
    rw [ApplyChanges_of_build_error supported api changes he]
    simp
  | none =>
    obtain ⟨dels, hd1, hd2⟩ := deleteDelete_trace api (buildPhase supported api).2.1
      (changes.Delete ++ changes.UpdateOld) (buildPhase supported api).1
    by_cases hn : (deleteDelete api (buildPhase supported api).2.1
        (changes.Delete ++ changes.UpdateOld) (buildPhase supported api).1).2 = Outcome.nil
    · obtain ⟨creates, hc1, hc2⟩ := createEndpoints_trace api
        (changes.Delete ++ changes.UpdateNew)
        (deleteDelete api (buildPhase supported api).2.1
          (changes.Delete ++ changes.UpdateOld) (buildPhase supported api).1).1
      refine ⟨dels, creates, ?_, hreads, hd2, hc2, ?_⟩
      · rw [ApplyChanges_of_delete_nil supported api changes he hn, hc1, hd1]
      · intro _
        obtain ⟨h1, h2⟩ := deleteDelete_nil api _ _ _ hn
        refine ⟨h2, ?_⟩
        rw [hd1] at h1
        exact List.append_cancel_left h1
    · refine ⟨dels, [], ?_, hreads, hd2, by simp, by simp⟩
      rw [ApplyChanges_of_delete_stop supported api changes he hn, hd1]
      simp

/-- In a list that splits as `l1 ++ l2`, an element that cannot be in `l1` lies
in `l2`, and so does everything after it. -/
theorem split_in_second {l1 l2 pre post : List Call} {c : Call}
    (h : l1 ++ l2 = pre ++ c :: post) (hc : c ∉ l1) : ∀ d ∈ post, d ∈ l2 := by
  rcases List.append_eq_append_iff.1 h with ⟨a, _, h2⟩ | ⟨b, h1, h2⟩
  · intro d hd
    rw [h2]
    simp [hd]
  · cases b with
    | nil =>
      intro d hd
      simp at h2
      rw [← h2]
      simp [hd]
    | cons x xs =>
      simp at h2
      exfalso
      apply hc
      rw [h1, ← h2.1]
      simp

/-! ## The walk over a served snapshot -/

theorem forEachRecordDo_zones_serves {α : Type} (supported : String → Bool) {api : hetznerAPI}
    {S : Snapshot} (h : Serves api S) (action : String → Record → α → α)
    (zones : List Zone) (tr : List Call) (acc : α)
    (htr : ∀ c ∈ tr, Call.isMutation c = false) :
    forEachRecordDo_zones supported api action zones tr acc =
      (tr ++ zones.map (fun Z => Call.GetAllRecords { page := none, zone := Z.Id }),
        (visitsOfZones supported S zones).foldl (fun a v => action v.1 v.2 a) acc, none) := by
  induction zones generalizing tr acc with
  | nil => simp [forEachRecordDo_zones, visitsOfZones]
  | cons Z zs ih =>
    have hr := (h tr htr).2 { page := none, zone := Z.Id }
    simp only [forEachRecordDo_zones, getAllRecordsForZone_ok hr]
    rw [ih]
    · simp [visitsOfZones, forEachRecordDo_records_eq]
    · intro c hc
      rcases List.mem_append.1 hc with hc | hc
      · exact htr c hc
      · simp at hc
        subst hc
        rfl

/-- Over a gateway that serves a snapshot the walk reads the zones, then the
records of each zone, and folds the action over the visits in zone order. -/
theorem forEachRecordDo_serves {α : Type} (supported : String → Bool) {api : hetznerAPI}
    {S : Snapshot} (h : Serves api S) (action : String → Record → α → α) (acc : α) :
    forEachRecordDo supported api action [] acc =
      (Call.GetAllZones ::
          S.zones.map (fun Z => Call.GetAllRecords { page := none, zone := Z.Id }),
        (visitsOfZones supported S S.zones).foldl (fun a v => action v.1 v.2 a) acc, none) := by
  have hz := (h [] (by simp)).1
  simp only [forEachRecordDo, getAllZones, hz]
  rw [forEachRecordDo_zones_serves supported h]
  · simp
  · intro c hc
    simp at hc
    subst hc
    rfl

theorem mem_visitsOfZones (supported : String → Bool) (S : Snapshot) (zones : List Zone)
    (v : String × Record) :
    v ∈ visitsOfZones supported S zones ↔
      ∃ Z ∈ zones, v.2 ∈ S.records Z.Id ∧ supported v.2.Typ = true ∧
        v.1 = if v.2.Name = "@" then Z.Name else v.2.Name ++ "." ++ Z.Name := by
  induction zones with
  | nil => simp [visitsOfZones]
  | cons Z zs ih =>
    simp only [visitsOfZones, List.mem_append, ih, List.mem_cons, exists_eq_or_imp]
    apply or_congr_left
    obtain ⟨n, r⟩ := v
    simp only [visitsOfZone, List.mem_map, List.mem_filter, Prod.mk.injEq]
    constructor
    · rintro ⟨r', ⟨hm, hs⟩, hn, hr⟩
      subst hr
      exact ⟨hm, hs, hn.symm⟩
    · rintro ⟨hm, hs, hn⟩
      exact ⟨r, ⟨hm, hs⟩, hn.symm, rfl⟩

/-- A name with a label in front is never the zone name itself. -/
theorem label_append_ne (r z : String) : r ++ "." ++ z ≠ z := by
  intro h
  have := congrArg String.length h
  have hdot : ".".length = 1 := rfl
  simp only [String.length_append, hdot] at this
  omega

/-- The outer loop over `pre ++ rest` continues with `rest` from where the loop
over `pre` ends without error. -/
theorem forEachRecordDo_zones_append {α : Type} (supported : String → Bool) (api : hetznerAPI)
    (action : String → Record → α → α) (pre rest : List Zone) (tr : List Call) (acc : α)
    {tr' : List Call} {acc' : α}
    (h : forEachRecordDo_zones supported api action pre tr acc = (tr', acc', none)) :
    forEachRecordDo_zones supported api action (pre ++ rest) tr acc =
      forEachRecordDo_zones supported api action rest tr' acc' := by
  induction pre generalizing tr acc with
  | nil =>
    simp only [forEachRecordDo_zones, Prod.mk.injEq, and_true] at h
    obtain ⟨h1, h2⟩ := h
    subst h1; subst h2
    rfl
  | cons Z zs ih =>
    rw [List.cons_append]
    cases hr : api.GetAllRecords tr { page := none, zone := Z.Id } with
    | error e => simp [forEachRecordDo_zones, getAllRecordsForZone_error hr] at h
    | ok records =>
      simp only [forEachRecordDo_zones, getAllRecordsForZone_ok hr] at h ⊢
      exact ih _ _ h

theorem buildPhase_reads (supported : String → Bool) (api : hetznerAPI) :
    ∀ c ∈ (buildPhase supported api).1, Call.isMutation c = false := by
  obtain ⟨_, _, _, h, _⟩ := ApplyChanges_shape supported api
    { Create := [], UpdateOld := [], UpdateNew := [], Delete := [] }
  exact h

/-! ## The claims -/

/-- C1 (evaluation at the failing input): on the provider state and the
`Changes` of `TestHetznerProvider_ApplyChanges`, with a gateway that accepts
every mutation, `ApplyChanges` calls `DeleteRecord("id-to-delete")` and then
panics: the creation set is built from `changes.Delete`, and the endpoint has no
target. -/
theorem ApplyChanges_delete_only_panics :
    ApplyChanges SupportedRecordType testSnapshot.api testChanges =
      ([Call.GetAllZones, Call.GetAllRecords { page := none, zone := "" },
        Call.DeleteRecord "id-to-delete"], Outcome.panic) := by
  decide

/-- C2 (evaluation at the failing input): with one explicit creation
`new.example.de` and one explicit deletion `test.example.de`, `ApplyChanges`
returns nil after a `CreateRecord` for the deleted endpoint and none for the
created one. -/
theorem ApplyChanges_creates_deleted_endpoint :
    ApplyChanges SupportedRecordType testSnapshot.api createAndDeleteChanges =
      ([Call.GetAllZones, Call.GetAllRecords { page := none, zone := "" },
        Call.DeleteRecord "id-to-delete",
        Call.CreateRecord { ZoneId := "", Typ := "A", Name := "test.example.de",
                            Value := "1.2.3.4", Ttl := none }], Outcome.nil) := by
  decide

/-- C3 (evaluation at the failing input): with zones `example.com` (ID `z1`)
and `sub.example.com` (ID `z2`), the `CreateRecord` call for
`a.sub.example.com` carries the empty zone ID, not `z2`. -/
theorem ApplyChanges_create_has_empty_zone :
    ApplyChanges SupportedRecordType nestedSnapshot.api nestedCreateChanges =
      ([Call.GetAllZones, Call.GetAllRecords { page := none, zone := "z1" },
        Call.GetAllRecords { page := none, zone := "z2" },
        Call.CreateRecord { ZoneId := "", Typ := "A", Name := "a.sub.example.com",
                            Value := "1.2.3.4", Ttl := none }], Outcome.nil) := by
  decide

/-- C4 (evaluation at the failing input): with the single zone `example.de`,
creating `a.other.org` issues a `CreateRecord` call and `ApplyChanges` returns
nil instead of an error. -/
theorem ApplyChanges_create_without_zone :
    ApplyChanges SupportedRecordType testSnapshot.api foreignCreateChanges =
      ([Call.GetAllZones, Call.GetAllRecords { page := none, zone := "" },
        Call.CreateRecord { ZoneId := "", Typ := "A", Name := "a.other.org",
                            Value := "1.2.3.4", Ttl := none }], Outcome.nil) := by
  decide

/-- C5: in the trace of one `ApplyChanges` invocation, whatever the gateway
answers, no `DeleteRecord` call comes after a `CreateRecord` call; and when a
`CreateRecord` call is issued at all, every endpoint of `Delete` followed by
`UpdateOld` has been resolved and the `DeleteRecord` calls of the trace are
exactly theirs, in order (so the delete of the old side of an update comes
before the create of its new side). -/
theorem ApplyChanges_deletes_before_creates (supported : String → Bool) (api : hetznerAPI)
    (changes : Changes) :
    (∀ pre c post, (ApplyChanges supported api changes).1 = pre ++ c :: post →
      Call.isCreate c = true → ∀ d ∈ post, Call.isDelete d = false) ∧
    ((∃ c ∈ (ApplyChanges supported api changes).1, Call.isCreate c = true) →
      (∀ ep ∈ changes.Delete ++ changes.UpdateOld,
        (deleteCall (buildPhase supported api).2.1 ep).isSome = true) ∧
      (ApplyChanges supported api changes).1.filter Call.isDelete =
        (changes.Delete ++ changes.UpdateOld).filterMap
          (deleteCall (buildPhase supported api).2.1)) := by
  obtain ⟨dels, creates, htr, hr, hd, hc, hall⟩ := ApplyChanges_shape supported api changes
  have hcd : ∀ c, Call.isCreate c = true → Call.isDelete c = false := by
    intro c h
    cases c <;> simp_all [Call.isCreate, Call.isDelete]
  have hmut : ∀ c, Call.isMutation c = false → Call.isCreate c = false ∧ Call.isDelete c = false := by
    intro c h
    simpa [Call.isMutation, Bool.or_eq_false_iff, and_comm] using h
  refine ⟨?_, ?_⟩
  · intro pre c post hsplit hcreate d hdpost
    rw [htr] at hsplit
    have hnot : c ∉ (buildPhase supported api).1 ++ dels := by
      intro hmem
      rcases List.mem_append.1 hmem with hm | hm
      · have := (hmut c (hr c hm)).1
        rw [hcreate] at this
        exact Bool.noConfusion this
      · have := hcd c hcreate
        rw [hd c hm] at this
        exact Bool.noConfusion this
    exact hcd d (hc d (split_in_second hsplit hnot d hdpost))
  · rintro ⟨c, hmem, hcreate⟩
    have hne : creates ≠ [] := by
      intro hnil
      subst hnil
      rw [htr] at hmem
      simp only [List.append_nil] at hmem
      rcases List.mem_append.1 hmem with hm | hm
      · have := (hmut c (hr c hm)).1
        rw [hcreate] at this
        exact Bool.noConfusion this
      · have := hcd c hcreate
        rw [hd c hm] at this
        exact Bool.noConfusion this
    obtain ⟨h1, h2⟩ := hall hne
    refine ⟨h1, ?_⟩
    rw [htr, List.filter_append, List.filter_append, ← h2]
    have e1 : List.filter Call.isDelete (buildPhase supported api).1 = [] :=
      List.filter_eq_nil_iff.2 (fun a ha => by simp [(hmut a (hr a ha)).2])
    have e2 : List.filter Call.isDelete dels = dels :=
      List.filter_eq_self.2 hd
    have e3 : List.filter Call.isDelete creates = [] :=
      List.filter_eq_nil_iff.2 (fun a ha => by simp [hcd a (hc a ha)])
    rw [e1, e2, e3]
    simp

/-- C5 at a concrete input: for an update in place of `test.example.de`, a
create is issued, and the deletes of the trace are those of the deletion set. -/
theorem ApplyChanges_deletes_before_creates_witness :
    (∀ ep ∈ updateChanges.Delete ++ updateChanges.UpdateOld,
        (deleteCall (buildPhase SupportedRecordType testSnapshot.api).2.1 ep).isSome = true) ∧
      (ApplyChanges SupportedRecordType testSnapshot.api updateChanges).1.filter Call.isDelete =
        (updateChanges.Delete ++ updateChanges.UpdateOld).filterMap
          (deleteCall (buildPhase SupportedRecordType testSnapshot.api).2.1) :=
  (ApplyChanges_deletes_before_creates SupportedRecordType testSnapshot.api updateChanges).2
    ⟨Call.CreateRecord { ZoneId := "", Typ := "A", Name := "test.example.de",
                         Value := "9.9.9.9", Ttl := none }, by decide, by decide⟩

/-- C6: if `GetAllZones` fails, or if it succeeds and `GetAllRecords` fails for
some zone after the zones before it have been read, then `ApplyChanges` returns
that error and its trace holds no `DeleteRecord` and no `CreateRecord` call. -/
theorem ApplyChanges_read_failure (supported : String → Bool) (api : hetznerAPI)
    (changes : Changes) (e : Error)
    (h : api.GetAllZones [] = .error e ∨
      ∃ pre Z post tr dic, api.GetAllZones [] = .ok { Zones := pre ++ Z :: post } ∧
        forEachRecordDo_zones supported api indexAction pre [Call.GetAllZones] Dict.empty =
          (tr, dic, none) ∧
        api.GetAllRecords tr { page := none, zone := Z.Id } = .error e) :
    (ApplyChanges supported api changes).2 = Outcome.err e ∧
      ∀ c ∈ (ApplyChanges supported api changes).1, Call.isMutation c = false := by
  have hb : (buildPhase supported api).2.2 = some e := by
    rcases h with h | ⟨pre, Z, post, tr, dic, hz, hpre, hr⟩
    · simp [buildPhase, forEachRecordDo, getAllZones, h]
    · simp only [buildPhase, forEachRecordDo, getAllZones, hz, List.nil_append]
      rw [forEachRecordDo_zones_append supported api indexAction pre (Z :: post) _ _ hpre]
      simp [forEachRecordDo_zones, getAllRecordsForZone_error hr]
  rw [ApplyChanges_of_build_error supported api changes hb]
  exact ⟨rfl, buildPhase_reads supported api⟩

/-- C6 at a concrete input: of the zones `z1`, `z2` the listing of `z2` fails,
after `z1` has been read. -/
theorem ApplyChanges_read_failure_witness :
    (ApplyChanges SupportedRecordType (nestedSnapshot.failingZoneApi "z2" "listing failed")
        nestedCreateChanges).2 = Outcome.err "listing failed" ∧
      ∀ c ∈ (ApplyChanges SupportedRecordType
        (nestedSnapshot.failingZoneApi "z2" "listing failed") nestedCreateChanges).1,
        Call.isMutation c = false :=
  ApplyChanges_read_failure SupportedRecordType
    (nestedSnapshot.failingZoneApi "z2" "listing failed") nestedCreateChanges "listing failed"
    (Or.inr ⟨[{ Id := "z1", Name := "example.com" }], { Id := "z2", Name := "sub.example.com" },
      [], [Call.GetAllZones, Call.GetAllRecords { page := none, zone := "z1" }], Dict.empty,
      rfl, rfl, rfl⟩)

/-- C7: when the build phase succeeds and the deletion set (`Delete` followed by
`UpdateOld`) holds an endpoint `ep` whose (DNSName, RecordType) the index does
not resolve, `ApplyChanges` returns an error (the resolution error when no
gateway call failed), issues no `CreateRecord` call, and its `DeleteRecord`
calls are those of a prefix of the endpoints before `ep`; when `ep` is the first
endpoint no mutation call is issued. -/
theorem ApplyChanges_unresolved_delete (supported : String → Bool) (api : hetznerAPI)
    (changes : Changes) (pre : List Endpoint) (ep : Endpoint) (post : List Endpoint)
    (hb : (buildPhase supported api).2.2 = none)
    (hsplit : changes.Delete ++ changes.UpdateOld = pre ++ ep :: post)
    (hk : (buildPhase supported api).2.1 { Typ := ep.RecordType, Name := ep.DNSName } = none) :
    (∃ e, (ApplyChanges supported api changes).2 = Outcome.err e ∧
      (AllOk api (ApplyChanges supported api changes).1 →
        e = "could not find record to delete")) ∧
    (∀ c ∈ (ApplyChanges supported api changes).1, Call.isCreate c = false) ∧
    (∃ done, done <+: pre ∧
      (∀ d ∈ done, (deleteCall (buildPhase supported api).2.1 d).isSome = true) ∧
      (ApplyChanges supported api changes).1 =
        (buildPhase supported api).1 ++
          done.filterMap (deleteCall (buildPhase supported api).2.1)) ∧
    (pre = [] → ∀ c ∈ (ApplyChanges supported api changes).1, Call.isMutation c = false) := by
  obtain ⟨done, h1, h2, h3, e, h4, h5⟩ := deleteDelete_unresolved api
    (buildPhase supported api).2.1 pre ep post (buildPhase supported api).1 hk
  have hstop : ApplyChanges supported api changes =
      deleteDelete api (buildPhase supported api).2.1 (pre ++ ep :: post)
        (buildPhase supported api).1 := by
    rw [← hsplit]
    apply ApplyChanges_of_delete_stop supported api changes hb
    rw [hsplit, h4]
    simp
  rw [hstop]
  refine ⟨⟨e, h4, h5⟩, ?_, ⟨done, h1, h2, h3⟩, ?_⟩
  · intro c hc
    rw [h3] at hc
    rcases List.mem_append.1 hc with hc | hc
    · have := buildPhase_reads supported api c hc
      simp only [Call.isMutation, Bool.or_eq_false_iff] at this
      exact this.2
    · obtain ⟨d, _, hd⟩ := List.mem_filterMap.1 hc
      simp only [deleteCall, Option.map_eq_some'] at hd
      obtain ⟨r, _, hr⟩ := hd
      subst hr
      rfl
  · intro hpre c hc
    subst hpre
    have hnil : done = [] := List.prefix_nil.1 h1
    subst hnil
    rw [h3] at hc
    simp only [List.filterMap_nil, List.append_nil] at hc
    exact buildPhase_reads supported api c hc

/-- C7 at a concrete input: deleting `missing.example.de` from the provider
state of the test. -/
theorem ApplyChanges_unresolved_delete_witness :
    (∃ e, (ApplyChanges SupportedRecordType testSnapshot.api missingChanges).2 = Outcome.err e ∧
      (AllOk testSnapshot.api (ApplyChanges SupportedRecordType testSnapshot.api missingChanges).1 →
        e = "could not find record to delete")) ∧
    (∀ c ∈ (ApplyChanges SupportedRecordType testSnapshot.api missingChanges).1,
      Call.isCreate c = false) ∧
    (∃ done, done <+: [] ∧
      (∀ d ∈ done,
        (deleteCall (buildPhase SupportedRecordType testSnapshot.api).2.1 d).isSome = true) ∧
      (ApplyChanges SupportedRecordType testSnapshot.api missingChanges).1 =
        (buildPhase SupportedRecordType testSnapshot.api).1 ++
          done.filterMap (deleteCall (buildPhase SupportedRecordType testSnapshot.api).2.1)) ∧
    (([] : List Endpoint) = [] →
      ∀ c ∈ (ApplyChanges SupportedRecordType testSnapshot.api missingChanges).1,
        Call.isMutation c = false) :=
  ApplyChanges_unresolved_delete SupportedRecordType testSnapshot.api missingChanges []
    { DNSName := "missing.example.de", Targets := [], RecordType := "A", RecordTTL := 0 } []
    (by decide) (by decide) (by decide)

/-- C8: if a `DeleteRecord` or `CreateRecord` call of the trace of
`ApplyChanges` is answered with an error, that call is the last call of the
trace and `ApplyChanges` returns exactly that error. -/
theorem ApplyChanges_mutation_failure (supported : String → Bool) (api : hetznerAPI)
    (changes : Changes) (pre : List Call) (c : Call) (post : List Call) (e : Error)
    (htr : (ApplyChanges supported api changes).1 = pre ++ c :: post)
    (_hm : Call.isMutation c = true)
    (he : api.failure pre c = some e) :
    post = [] ∧ (ApplyChanges supported api changes).2 = Outcome.err e :=
  (ApplyChanges_ended supported api changes).failfast htr he

/-- C8 at a concrete input: the gateway rejects the delete of the test. -/
theorem ApplyChanges_mutation_failure_witness :
    ([] : List Call) = [] ∧
      (ApplyChanges SupportedRecordType (testSnapshot.rejectingApi "rejected") testChanges).2 =
        Outcome.err "rejected" :=
  ApplyChanges_mutation_failure SupportedRecordType (testSnapshot.rejectingApi "rejected")
    testChanges [Call.GetAllZones, Call.GetAllRecords { page := none, zone := "" }]
    (Call.DeleteRecord "id-to-delete") [] "rejected" (by decide) (by decide) (by decide)

/-- C9: when the reads of the build phase succeed, `ApplyChanges` on the empty
`Changes` returns nil and its trace is the reads of the build phase, none of
which is a `DeleteRecord` or a `CreateRecord`. -/
theorem ApplyChanges_empty (supported : String → Bool) (api : hetznerAPI)
    (hb : (buildPhase supported api).2.2 = none) :
    ApplyChanges supported api emptyChanges = ((buildPhase supported api).1, Outcome.nil) ∧
      ∀ c ∈ (buildPhase supported api).1, Call.isMutation c = false := by
  refine ⟨?_, buildPhase_reads supported api⟩
  rw [ApplyChanges_of_delete_nil supported api emptyChanges hb
    (by simp [emptyChanges, deleteDelete])]
  simp [emptyChanges, deleteDelete, createEndpoints]

/-- C9 at a concrete input: the provider state of the test. -/
theorem ApplyChanges_empty_witness :
    ApplyChanges SupportedRecordType testSnapshot.api emptyChanges =
        ((buildPhase SupportedRecordType testSnapshot.api).1, Outcome.nil) ∧
      ∀ c ∈ (buildPhase SupportedRecordType testSnapshot.api).1, Call.isMutation c = false :=
  ApplyChanges_empty SupportedRecordType testSnapshot.api (by decide)

/-- C10: over a gateway that serves a snapshot, what `forEachRecordDo` does with
any action is a fold of that action over the (name, record) pairs it passes;
for every zone `Z` of the snapshot and every record of `Z` of a supported type,
the pair passed has name `Z.Name` when the record's name is `@` and
`record.Name + "." + Z.Name` otherwise; every pair passed arises so, and its
name is `Z.Name` only in the `@` case. -/
theorem forEachRecordDo_normalized_name (supported : String → Bool) (api : hetznerAPI)
    (S : Snapshot) (h : Serves api S) :
    (∀ (α : Type) (action : String → Record → α → α) (acc : α),
      (forEachRecordDo supported api action [] acc).2.1 =
        (forEachRecordDo supported api collect [] []).2.1.foldl
          (fun a v => action v.1 v.2 a) acc) ∧
    (∀ Z ∈ S.zones, ∀ record ∈ S.records Z.Id, supported record.Typ = true →
      (record.Name = "@" →
        (Z.Name, record) ∈ (forEachRecordDo supported api collect [] []).2.1) ∧
      (record.Name ≠ "@" →
        (record.Name ++ "." ++ Z.Name, record) ∈
          (forEachRecordDo supported api collect [] []).2.1)) ∧
    (∀ v ∈ (forEachRecordDo supported api collect [] []).2.1,
      ∃ Z ∈ S.zones, v.2 ∈ S.records Z.Id ∧ supported v.2.Typ = true ∧
        (v.2.Name = "@" → v.1 = Z.Name) ∧
        (v.2.Name ≠ "@" → v.1 = v.2.Name ++ "." ++ Z.Name) ∧
        (v.1 = Z.Name ↔ v.2.Name = "@")) := by
  have hpassed : (forEachRecordDo supported api collect [] []).2.1 =
      visitsOfZones supported S S.zones := by
    rw [forEachRecordDo_serves supported h collect [], foldl_collect]
    simp
  refine ⟨?_, ?_, ?_⟩
  · intro α action acc
    rw [forEachRecordDo_collect supported api action [] acc]
  · intro Z hZ record hrec hs
    rw [hpassed]
    constructor
    · intro hname
      exact (mem_visitsOfZones supported S S.zones (Z.Name, record)).2
        ⟨Z, hZ, hrec, hs, by simp [hname]⟩
    · intro hname
      exact (mem_visitsOfZones supported S S.zones (record.Name ++ "." ++ Z.Name, record)).2
        ⟨Z, hZ, hrec, hs, by simp [hname]⟩
  · intro v hv
    rw [hpassed] at hv
    obtain ⟨Z, hZ, hrec, hs, hname⟩ := (mem_visitsOfZones supported S S.zones v).1 hv
    refine ⟨Z, hZ, hrec, hs, ?_, ?_, ?_⟩
    · intro hat
      rw [hname, if_pos hat]
    · intro hat
      rw [hname, if_neg hat]
    · constructor
      · intro heq
        by_contra hat
        rw [hname, if_neg hat] at heq
        exact label_append_ne _ _ heq
      · intro hat
        rw [hname, if_pos hat]

/-- C10 at a concrete input: the record `test` of zone `example.de` is passed
under the name `test.example.de`. -/
theorem forEachRecordDo_normalized_name_witness :
    (testRecord.Name = "@" →
        (("example.de", testRecord) : String × Record) ∈
          (forEachRecordDo SupportedRecordType testSnapshot.api collect [] []).2.1) ∧
      (testRecord.Name ≠ "@" →
        (testRecord.Name ++ "." ++ "example.de", testRecord) ∈
          (forEachRecordDo SupportedRecordType testSnapshot.api collect [] []).2.1) :=
  (forEachRecordDo_normalized_name SupportedRecordType testSnapshot.api testSnapshot
    (fun _ _ => ⟨rfl, fun _ => rfl⟩)).2.1
    { Id := "", Name := "example.de" } (by decide) testRecord (by decide) (by decide)

/-! ## The index and the read path -/

/-- A key that no visit of the list writes keeps its entry. -/
theorem foldl_index_untouched (visits : List (String × Record)) (dic : Dict) (k : Key)
    (h : ∀ v ∈ visits, ¬(v.1 = k.Name ∧ v.2.Typ = k.Typ)) :
    (visits.foldl (fun dic v => indexAction v.1 v.2 dic) dic) k = dic k := by
  induction visits generalizing dic with
  | nil => rfl
  | cons v vs ih =>
    rw [List.foldl_cons, ih _ (fun w hw => h w (List.mem_cons_of_mem _ hw))]
    have hv := h v (List.mem_cons_self _ _)
    have hne : k ≠ { Typ := v.2.Typ, Name := v.1 } := by
      intro hk
      apply hv
      rw [hk]
      exact ⟨rfl, rfl⟩
    simp [indexAction, Dict.set, hne]

/-- An entry of the index was there before or was written by a visit with the
name and the type of the key. -/
theorem foldl_index_some (visits : List (String × Record)) (dic : Dict) (k : Key) (r : Record)
    (h : (visits.foldl (fun dic v => indexAction v.1 v.2 dic) dic) k = some r) :
    dic k = some r ∨ ((k.Name, r) ∈ visits ∧ k.Typ = r.Typ) := by
  induction visits generalizing dic with
  | nil => exact Or.inl h
  | cons v vs ih =>
    rw [List.foldl_cons] at h
    rcases ih _ h with h1 | ⟨h1, h2⟩
    · by_cases hk : k = { Typ := v.2.Typ, Name := v.1 }
      · right
        simp only [indexAction, Dict.set, hk, if_true, Option.some.injEq] at h1
        subst h1
        rw [hk]
        exact ⟨List.mem_cons_self _ _, rfl⟩
      · left
        simpa [indexAction, Dict.set, hk] using h1
    · exact Or.inr ⟨List.mem_cons_of_mem _ h1, h2⟩

/-- A key that has an entry, or that some visit writes, has an entry afterwards. -/
theorem foldl_index_isSome (visits : List (String × Record)) (dic : Dict) (k : Key)
    (h : (dic k).isSome = true ∨ ∃ v ∈ visits, v.1 = k.Name ∧ v.2.Typ = k.Typ) :
    ((visits.foldl (fun dic v => indexAction v.1 v.2 dic) dic) k).isSome = true := by
  induction visits generalizing dic with
  | nil =>
    rcases h with h | ⟨v, hv, _⟩
    · exact h
    · simp at hv
  | cons v vs ih =>
    rw [List.foldl_cons]
    apply ih
    by_cases hk : k = { Typ := v.2.Typ, Name := v.1 }
    · left
      simp [indexAction, Dict.set, hk]
    · rcases h with h | ⟨w, hw, hw1, hw2⟩
      · left
        simpa [indexAction, Dict.set, hk] using h
      · rcases List.mem_cons.1 hw with hw | hw
        · exfalso
          apply hk
          subst hw
          cases k
          simp_all
        · exact Or.inr ⟨w, hw, hw1, hw2⟩

/-- Last write wins: the index maps the name and type of a visit to its record
when no later visit has that name and type. -/
theorem indexOf_last (pre : List (String × Record)) (n : String) (r : Record)
    (post : List (String × Record))
    (h : ∀ v ∈ post, ¬(v.1 = n ∧ v.2.Typ = r.Typ)) :
    indexOf (pre ++ (n, r) :: post) { Typ := r.Typ, Name := n } = some r := by
  unfold indexOf
  rw [List.foldl_append, List.foldl_cons, foldl_index_untouched post _ _ h]
  simp [indexAction, Dict.set]

/-- Every entry of the index is a visit with the name and the type of its key. -/
theorem indexOf_some (visits : List (String × Record)) (k : Key) (r : Record)
    (h : indexOf visits k = some r) : (k.Name, r) ∈ visits ∧ k.Typ = r.Typ := by
  rcases foldl_index_some visits Dict.empty k r h with h1 | h1
  · simp [Dict.empty] at h1
  · exact h1

/-- The index of the build phase is the index of what the walk passes. -/
theorem buildPhase_index (supported : String → Bool) (api : hetznerAPI) :
    (buildPhase supported api).2.1 = indexOf (passed supported api) := by
  simp only [buildPhase]
  rw [forEachRecordDo_collect supported api indexAction [] Dict.empty]
  rfl

/-- The error of the build phase is the error of the walk. -/
theorem buildPhase_error (supported : String → Bool) (api : hetznerAPI) :
    (buildPhase supported api).2.2 = (forEachRecordDo supported api collect [] []).2.2 := by
  simp only [buildPhase]
  rw [forEachRecordDo_collect supported api indexAction [] Dict.empty]

theorem foldl_recordsAction (vs : List (String × Record)) (l : List Endpoint) :
    vs.foldl (fun a v => recordsAction v.1 v.2 a) l = l ++ vs.map toEndpoint := by
  induction vs generalizing l with
  | nil => simp
  | cons v vs ih =>
    rw [List.foldl_cons, ih]
    simp [recordsAction, toEndpoint]

/-- `Records` by cases on the error of the walk. -/
theorem Records_eq (supported : String → Bool) (api : hetznerAPI) :
    Records supported api =
      ((forEachRecordDo supported api collect [] []).1,
        match (forEachRecordDo supported api collect [] []).2.2 with
        | some e => .error e
        | none => .ok ((passed supported api).map toEndpoint)) := by
  unfold Records
  simp only [passed]
  rw [forEachRecordDo_collect supported api recordsAction [] []]
  rcases forEachRecordDo supported api collect [] [] with ⟨tr, vs, err⟩
  cases err with
  | some e => rfl
  | none => simp [foldl_recordsAction]

/-- Whatever the gateway answers, the walk passes only records of a supported
type. -/
theorem passed_supported (supported : String → Bool) (api : hetznerAPI) :
    ∀ v ∈ passed supported api, supported v.2.Typ = true := by
  have hz : ∀ (zones : List Zone) (tr : List Call) (l : List (String × Record)),
      (∀ v ∈ l, supported v.2.Typ = true) →
      ∀ v ∈ (forEachRecordDo_zones supported api collect zones tr l).2.1,
        supported v.2.Typ = true := by
    intro zones
    induction zones with
    | nil =>
      intro tr l hl v hv
      exact hl v (by simpa [forEachRecordDo_zones] using hv)
    | cons Z zs ih =>
      intro tr l hl
      cases hr : api.GetAllRecords tr { page := none, zone := Z.Id } with
      | error e =>
        intro v hv
        exact hl v (by simpa [forEachRecordDo_zones, getAllRecordsForZone_error hr] using hv)
      | ok records =>
        simp only [forEachRecordDo_zones, getAllRecordsForZone_ok hr]
        apply ih
        intro v hv
        rw [forEachRecordDo_records_eq, foldl_collect] at hv
        rcases List.mem_append.1 hv with hv | hv
        · exact hl v hv
        · simp only [visitsOfZone, List.mem_map, List.mem_filter] at hv
          obtain ⟨r, ⟨_, hs⟩, hv⟩ := hv
          subst hv
          exact hs
  cases h : api.GetAllZones [] with
  | error e =>
    intro v hv
    simp [passed, forEachRecordDo, getAllZones, h] at hv
  | ok zones =>
    simp only [passed, forEachRecordDo, getAllZones, h]
    exact hz zones.Zones _ [] (by simp)

/-- Over a gateway that serves a snapshot, the walk passes the visits of the
snapshot and ends without error. -/
theorem passed_serves (supported : String → Bool) {api : hetznerAPI} {S : Snapshot}
    (h : Serves api S) :
    passed supported api = visitsOfZones supported S S.zones ∧
      (forEachRecordDo supported api collect [] []).2.2 = none := by
  simp only [passed]
  rw [forEachRecordDo_serves supported h collect [], foldl_collect]
  simp

/-- The visits of a snapshot, written out: zone by zone, the records of a
supported type in their order, each under its normalized name. -/
theorem visitsOfZones_eq_flatMap (supported : String → Bool) (S : Snapshot)
    (zones : List Zone) :
    visitsOfZones supported S zones =
      zones.flatMap (fun Z =>
        ((S.records Z.Id).filter (fun record => supported record.Typ)).map
          (fun record =>
            (if record.Name = "@" then Z.Name else record.Name ++ "." ++ Z.Name, record))) := by
  induction zones with
  | nil => rfl
  | cons Z zs ih => simp [visitsOfZones, visitsOfZone, ih, List.flatMap_cons]

/-! ## The calls of the two mutation phases -/

/-- The delete phase calls `DeleteRecord` for a prefix of its endpoints, all
resolved, in order. -/
theorem deleteDelete_attempted (api : hetznerAPI) (dic : Dict) (eps : List Endpoint)
    (tr : List Call) :
    ∃ done, done <+: eps ∧ (∀ d ∈ done, (deleteCall dic d).isSome = true) ∧
      (deleteDelete api dic eps tr).1 = tr ++ done.filterMap (deleteCall dic) := by
  induction eps generalizing tr with
  | nil => exact ⟨[], List.nil_prefix, by simp, by simp [deleteDelete]⟩
  | cons a eps ih =>
    cases ha : dic { Typ := a.RecordType, Name := a.DNSName } with
    | none => exact ⟨[], List.nil_prefix, by simp, by simp [deleteDelete, ha]⟩
    | some record =>
      cases hd : api.DeleteRecord tr record.Id with
      | some e =>
        exact ⟨[a], by simp [List.prefix_cons_inj], by simp [deleteCall, ha],
          by simp [deleteDelete, ha, hd, deleteCall]⟩
      | none =>
        obtain ⟨done, h1, h2, h3⟩ := ih (tr ++ [Call.DeleteRecord record.Id])
        refine ⟨a :: done, by simpa [List.prefix_cons_inj] using h1, ?_, ?_⟩
        · intro d hd'
          rcases List.mem_cons.1 hd' with hd' | hd'
          · subst hd'; simp [deleteCall, ha]
          · exact h2 d hd'
        · simp only [deleteDelete, ha, hd]
          rw [h3]
          simp [List.filterMap_cons, deleteCall, ha]

/-- The create phase calls `CreateRecord` for a prefix of its endpoints, in
order, each call made of the endpoint's type, name and first target; the prefix
is the whole list when the phase returns nil. -/
theorem createEndpoints_attempted (api : hetznerAPI) (eps : List Endpoint) (tr : List Call) :
    ∃ attempted creates, attempted <+: eps ∧ List.Forall₂ IsCreateCallOf attempted creates ∧
      (createEndpoints api eps tr).1 = tr ++ creates ∧
      ((createEndpoints api eps tr).2 = Outcome.nil → attempted = eps) := by
  induction eps generalizing tr with
  | nil => exact ⟨[], [], List.nil_prefix, List.Forall₂.nil, by simp [createEndpoints], fun _ => rfl⟩
  | cons ep eps ih =>
    cases ht : ep.Targets with
    | nil =>
      exact ⟨[], [], List.nil_prefix, List.Forall₂.nil, by simp [createEndpoints, ht],
        by simp [createEndpoints, ht]⟩
    | cons t ts =>
      have hcall : IsCreateCallOf ep (Call.CreateRecord
          { ZoneId := "", Typ := ep.RecordType, Name := ep.DNSName, Value := t, Ttl := none }) :=
        ⟨t, ts, ht, rfl⟩
      cases hc : api.CreateRecord tr
          { Typ := ep.RecordType, ZoneId := "", Name := ep.DNSName, Value := t, Ttl := none } with
      | some e =>
        exact ⟨[ep], _, by simp [List.prefix_cons_inj], List.Forall₂.cons hcall List.Forall₂.nil,
          by simp [createEndpoints, ht, hc], by simp [createEndpoints, ht, hc]⟩
      | none =>
        obtain ⟨attempted, creates, h1, h2, h3, h4⟩ := ih (tr ++ [Call.CreateRecord
          { Typ := ep.RecordType, ZoneId := "", Name := ep.DNSName, Value := t, Ttl := none }])
        refine ⟨ep :: attempted, _ :: creates, by simpa [List.prefix_cons_inj] using h1,
          List.Forall₂.cons hcall h2, ?_, ?_⟩
        · simp only [createEndpoints, ht, hc]
          rw [h3]
          simp
        · intro hn
          simp only [createEndpoints, ht, hc] at hn
          rw [h4 hn]

/-- The calls of `ApplyChanges`: the reads of the build phase, the
`DeleteRecord` calls of a resolved prefix of `Delete ++ UpdateOld`, and the
`CreateRecord` calls of a prefix of `Delete ++ UpdateNew`. -/
theorem ApplyChanges_calls (supported : String → Bool) (api : hetznerAPI)
    (changes : Changes) :
    ∃ done attempted creates,
      done <+: changes.Delete ++ changes.UpdateOld ∧
      (∀ d ∈ done, (deleteCall (buildPhase supported api).2.1 d).isSome = true) ∧
      attempted <+: changes.Delete ++ changes.UpdateNew ∧
      List.Forall₂ IsCreateCallOf attempted creates ∧
      (ApplyChanges supported api changes).1 =
        (buildPhase supported api).1 ++
          done.filterMap (deleteCall (buildPhase supported api).2.1) ++ creates ∧
      ((ApplyChanges supported api changes).2 = Outcome.nil →
        attempted = changes.Delete ++ changes.UpdateNew) := by
  cases he : (buildPhase supported api).2.2 with
  | some e =>
    refine ⟨[], [], [], List.nil_prefix, by simp, List.nil_prefix, List.Forall₂.nil, ?_, ?_⟩
    · rw [ApplyChanges_of_build_error supported api changes he]
      simp
    · rw [ApplyChanges_of_build_error supported api changes he]
      simp
  | none =>
    obtain ⟨done, hd1, hd2, hd3⟩ := deleteDelete_attempted api (buildPhase supported api).2.1
      (changes.Delete ++ changes.UpdateOld) (buildPhase supported api).1
    by_cases hn : (deleteDelete api (buildPhase supported api).2.1
        (changes.Delete ++ changes.UpdateOld) (buildPhase supported api).1).2 = Outcome.nil
    · obtain ⟨attempted, creates, hc1, hc2, hc3, hc4⟩ := createEndpoints_attempted api
        (changes.Delete ++ changes.UpdateNew)
        (deleteDelete api (buildPhase supported api).2.1
          (changes.Delete ++ changes.UpdateOld) (buildPhase supported api).1).1
      refine ⟨done, attempted, creates, hd1, hd2, hc1, hc2, ?_, ?_⟩
      · rw [ApplyChanges_of_delete_nil supported api changes he hn, hc3, hd3]
      · rw [ApplyChanges_of_delete_nil supported api changes he hn]
        exact hc4
    · refine ⟨done, [], [], hd1, hd2, List.nil_prefix, List.Forall₂.nil, ?_, ?_⟩
      · rw [ApplyChanges_of_delete_stop supported api changes he hn, hd3]
        simp
      · rw [ApplyChanges_of_delete_stop supported api changes he hn]
        intro h
        exact absurd h hn

/-- A `DeleteRecord` call of `ApplyChanges` comes from an endpoint of the
deletion set that the index resolves to a record with that ID. -/
theorem ApplyChanges_delete_source (supported : String → Bool) (api : hetznerAPI)
    (changes : Changes) (id : String)
    (h : Call.DeleteRecord id ∈ (ApplyChanges supported api changes).1) :
    ∃ ep ∈ changes.Delete ++ changes.UpdateOld, ∃ r,
      (buildPhase supported api).2.1 { Typ := ep.RecordType, Name := ep.DNSName } = some r ∧
      r.Id = id := by
  obtain ⟨done, attempted, creates, h1, _, _, h4, h5, _⟩ :=
    ApplyChanges_calls supported api changes
  rw [h5] at h
  rcases List.mem_append.1 h with h | h
  · rcases List.mem_append.1 h with h | h
    · have := buildPhase_reads supported api _ h
      simp [Call.isMutation, Call.isDelete] at this
    · obtain ⟨ep, hep, hcall⟩ := List.mem_filterMap.1 h
      simp only [deleteCall, Option.map_eq_some'] at hcall
      obtain ⟨r, hr, hid⟩ := hcall
      refine ⟨ep, h1.subset hep, r, hr, ?_⟩
      simpa using hid
  · exfalso
    have hall : ∀ (l1 : List Endpoint) (l2 : List Call), List.Forall₂ IsCreateCallOf l1 l2 →
        Call.DeleteRecord id ∉ l2 := by
      intro l1 l2 hf
      induction hf with
      | nil => simp
      | cons hab _ ih =>
        intro hm
        rcases List.mem_cons.1 hm with hm | hm
        · obtain ⟨t, ts, _, hc⟩ := hab
          rw [← hm] at hc
          cases hc
        · exact ih hm
    exact hall _ _ h4 h

/-- After a build phase without error, an endpoint of the deletion set that the
index does not resolve makes `ApplyChanges` return an error after
`DeleteRecord` calls for endpoints before it only. -/
theorem ApplyChanges_stop_unresolved (supported : String → Bool) (api : hetznerAPI)
    (changes : Changes) (pre : List Endpoint) (ep : Endpoint) (post : List Endpoint)
    (hb : (buildPhase supported api).2.2 = none)
    (hsplit : changes.Delete ++ changes.UpdateOld = pre ++ ep :: post)
    (hk : (buildPhase supported api).2.1 { Typ := ep.RecordType, Name := ep.DNSName } = none) :
    (∃ e, (ApplyChanges supported api changes).2 = Outcome.err e) ∧
      ∃ done, done <+: pre ∧
        (ApplyChanges supported api changes).1 =
          (buildPhase supported api).1 ++
            done.filterMap (deleteCall (buildPhase supported api).2.1) := by
  obtain ⟨done, h1, _, h3, e, h4, _⟩ := deleteDelete_unresolved api
    (buildPhase supported api).2.1 pre ep post (buildPhase supported api).1 hk
  have hstop : ApplyChanges supported api changes =
      deleteDelete api (buildPhase supported api).2.1 (pre ++ ep :: post)
        (buildPhase supported api).1 := by
    rw [← hsplit]
    apply ApplyChanges_of_delete_stop supported api changes hb
    rw [hsplit, h4]
    simp
  rw [hstop]
  exact ⟨⟨e, h4⟩, done, h1, h3⟩

/-- The calls of the create phase are `CreateRecord` calls. -/
theorem isCreate_of_forall₂ {l1 : List Endpoint} {l2 : List Call}
    (h : List.Forall₂ IsCreateCallOf l1 l2) : ∀ c ∈ l2, Call.isCreate c = true := by
  induction h with
  | nil => simp
  | cons hab _ ih =>
    intro c hc
    rcases List.mem_cons.1 hc with hc | hc
    · obtain ⟨t, ts, _, hcall⟩ := hab
      rw [hc, hcall]
      rfl
    · exact ih c hc

/-- A resolved first endpoint gets its `DeleteRecord` call first, whatever the
gateway answers. -/
theorem deleteDelete_head (api : hetznerAPI) (dic : Dict) (ep : Endpoint)
    (rest : List Endpoint) (tr : List Call) (r : Record)
    (hk : dic { Typ := ep.RecordType, Name := ep.DNSName } = some r) :
    ∃ done, done <+: rest ∧
      (deleteDelete api dic (ep :: rest) tr).1 =
        tr ++ Call.DeleteRecord r.Id :: done.filterMap (deleteCall dic) := by
  cases hd : api.DeleteRecord tr r.Id with
  | some e => exact ⟨[], List.nil_prefix, by simp [deleteDelete, hk, hd]⟩
  | none =>
    obtain ⟨done, h1, _, h3⟩ := deleteDelete_attempted api dic rest (tr ++ [Call.DeleteRecord r.Id])
    refine ⟨done, h1, ?_⟩
    simp only [deleteDelete, hk, hd]
    rw [h3]
    simp

/-- After a build phase without error, the trace of `ApplyChanges` is the trace
of the delete phase followed by `CreateRecord` calls. -/
theorem ApplyChanges_after_build (supported : String → Bool) (api : hetznerAPI)
    (changes : Changes) (hb : (buildPhase supported api).2.2 = none) :
    ∃ creates, (ApplyChanges supported api changes).1 =
        (deleteDelete api (buildPhase supported api).2.1
          (changes.Delete ++ changes.UpdateOld) (buildPhase supported api).1).1 ++ creates ∧
      ∀ c ∈ creates, Call.isCreate c = true := by
  by_cases hn : (deleteDelete api (buildPhase supported api).2.1
      (changes.Delete ++ changes.UpdateOld) (buildPhase supported api).1).2 = Outcome.nil
  · obtain ⟨creates, hc1, hc2⟩ := createEndpoints_trace api
      (changes.Delete ++ changes.UpdateNew)
      (deleteDelete api (buildPhase supported api).2.1
        (changes.Delete ++ changes.UpdateOld) (buildPhase supported api).1).1
    exact ⟨creates, by rw [ApplyChanges_of_delete_nil supported api changes hb hn, hc1], hc2⟩
  · exact ⟨[], by rw [ApplyChanges_of_delete_stop supported api changes hb hn]; simp, by simp⟩

/-! ## The claims, continued -/

/-- C11 (counterexample): with two `A` records named `test` in one zone, IDs
`r1` and `r2`, `Records` returns an endpoint for each, and the endpoint made of
`r1` is resolved by the index to `r2`, whose ID differs; so the round trip does
not hold for every record the read path returns. -/
theorem round_trip_fails_on_duplicates :
    (Records SupportedRecordType duplicateSnapshot.api).2 =
        .ok [toEndpoint ("test.example.de", duplicateFirst),
             toEndpoint ("test.example.de", duplicateSecond)] ∧
      (buildPhase SupportedRecordType duplicateSnapshot.api).2.1
          { Typ := (toEndpoint ("test.example.de", duplicateFirst)).RecordType,
            Name := (toEndpoint ("test.example.de", duplicateFirst)).DNSName } =
        some duplicateSecond ∧
      duplicateSecond.Id ≠ duplicateFirst.Id ∧
      ¬ (∀ v ∈ passed SupportedRecordType duplicateSnapshot.api,
          ∃ r, (buildPhase SupportedRecordType duplicateSnapshot.api).2.1
              { Typ := (toEndpoint v).RecordType, Name := (toEndpoint v).DNSName } = some r ∧
            r.Id = v.2.Id) := by
  have hlook : (buildPhase SupportedRecordType duplicateSnapshot.api).2.1
      { Typ := (toEndpoint ("test.example.de", duplicateFirst)).RecordType,
        Name := (toEndpoint ("test.example.de", duplicateFirst)).DNSName } =
      some duplicateSecond := by decide
  refine ⟨rfl, hlook, by decide, ?_⟩
  intro h
  obtain ⟨r, hr, hid⟩ := h ("test.example.de", duplicateFirst) (by decide)
  rw [hlook] at hr
  simp only [Option.some.injEq] at hr
  subst hr
  revert hid
  decide

/-- C11 (amended): when `Records` returns endpoints, they are the endpoints of
the records the walk passes, in order; the index built from the same reads
resolves the (DNSName, RecordType) of each of them to a record of the walk with
that normalized name and type, and to the very record the endpoint was made of
(hence the same ID) when no later record of the walk has the same normalized
name and type. -/
theorem Records_index_round_trip (supported : String → Bool) (api : hetznerAPI)
    (eps : List Endpoint) (hok : (Records supported api).2 = .ok eps) :
    eps = (passed supported api).map toEndpoint ∧
    ∀ pre v post, passed supported api = pre ++ v :: post →
      (∃ r, (buildPhase supported api).2.1
            { Typ := (toEndpoint v).RecordType, Name := (toEndpoint v).DNSName } = some r ∧
          (v.1, r) ∈ passed supported api ∧ r.Typ = v.2.Typ) ∧
      ((∀ w ∈ post, ¬(w.1 = v.1 ∧ w.2.Typ = v.2.Typ)) →
        (buildPhase supported api).2.1
            { Typ := (toEndpoint v).RecordType, Name := (toEndpoint v).DNSName } = some v.2) := by
  refine ⟨?_, ?_⟩
  · rw [Records_eq] at hok
    cases he : (forEachRecordDo supported api collect [] []).2.2 with
    | some e => simp [he] at hok
    | none =>
      simp only [he, Except.ok.injEq] at hok
      exact hok.symm
  · intro pre v post hsplit
    obtain ⟨n, r⟩ := v
    rw [buildPhase_index, hsplit]
    refine ⟨?_, ?_⟩
    · have hsome := foldl_index_isSome (pre ++ (n, r) :: post) Dict.empty
        { Typ := r.Typ, Name := n } (Or.inr ⟨(n, r), by simp, rfl, rfl⟩)
      obtain ⟨r', hr'⟩ := Option.isSome_iff_exists.1 hsome
      obtain ⟨h1, h2⟩ := indexOf_some _ _ _ hr'
      exact ⟨r', hr', h1, h2.symm⟩
    · intro hlast
      exact indexOf_last pre n r post hlast

/-- C11 (amended) at a concrete input: the second of the two duplicate records
is resolved to itself. -/
theorem Records_index_round_trip_witness :
    (buildPhase SupportedRecordType duplicateSnapshot.api).2.1
        { Typ := (toEndpoint ("test.example.de", duplicateSecond)).RecordType,
          Name := (toEndpoint ("test.example.de", duplicateSecond)).DNSName } =
      some duplicateSecond :=
  ((Records_index_round_trip SupportedRecordType duplicateSnapshot.api
      [toEndpoint ("test.example.de", duplicateFirst),
       toEndpoint ("test.example.de", duplicateSecond)] rfl).2
    [("test.example.de", duplicateFirst)] ("test.example.de", duplicateSecond) [] (by decide)).2
    (by simp)

/-- C12: over a gateway that serves a snapshot, a record of the snapshot whose
type is not supported is not among the records `Records` makes its endpoints of
(none of them has its type) and leaves no entry of its type in the index under
any name; a deletion set holding an endpoint of
that type makes `ApplyChanges` return an error (without any mutation call when
that endpoint comes first); and `DeleteRecord` is never called with the
record's ID unless a record of a supported type has the same ID. -/
theorem unsupported_record_excluded (supported : String → Bool) (api : hetznerAPI)
    (S : Snapshot) (h : Serves api S) (Z : Zone) (_hZ : Z ∈ S.zones) (r : Record)
    (_hr : r ∈ S.records Z.Id) (hs : supported r.Typ = false) :
    ((Records supported api).2 = .ok ((passed supported api).map toEndpoint) ∧
      ∀ v ∈ passed supported api, v.2.Typ ≠ r.Typ) ∧
    (∀ name, (buildPhase supported api).2.1 { Typ := r.Typ, Name := name } = none) ∧
    (∀ changes pre ep post, changes.Delete ++ changes.UpdateOld = pre ++ ep :: post →
      ep.RecordType = r.Typ →
      (∃ e, (ApplyChanges supported api changes).2 = Outcome.err e) ∧
      (pre = [] → ∀ c ∈ (ApplyChanges supported api changes).1, Call.isMutation c = false)) ∧
    (∀ changes,
      (∀ Z' ∈ S.zones, ∀ r' ∈ S.records Z'.Id, supported r'.Typ = true → r'.Id ≠ r.Id) →
      Call.DeleteRecord r.Id ∉ (ApplyChanges supported api changes).1) := by
  obtain ⟨hpassed, herr⟩ := passed_serves supported h
  have hnone : ∀ name, (buildPhase supported api).2.1 { Typ := r.Typ, Name := name } = none := by
    intro name
    cases hk : (buildPhase supported api).2.1 { Typ := r.Typ, Name := name } with
    | none => rfl
    | some r' =>
      exfalso
      rw [buildPhase_index] at hk
      obtain ⟨h1, h2⟩ := indexOf_some _ _ _ hk
      have := passed_supported supported api _ h1
      simp only at h2 this
      rw [← h2, hs] at this
      exact Bool.noConfusion this
  have hb : (buildPhase supported api).2.2 = none := by
    rw [buildPhase_error, herr]
  refine ⟨?_, hnone, ?_, ?_⟩
  · refine ⟨?_, ?_⟩
    · rw [Records_eq, herr]
    · intro v hv heq
      have := passed_supported supported api v hv
      rw [heq, hs] at this
      exact Bool.noConfusion this
  · intro changes pre ep post hsplit htyp
    have hk : (buildPhase supported api).2.1 { Typ := ep.RecordType, Name := ep.DNSName } =
        none := by
      rw [htyp]
      exact hnone _
    obtain ⟨he, done, hd1, hd2⟩ :=
      ApplyChanges_stop_unresolved supported api changes pre ep post hb hsplit hk
    refine ⟨he, ?_⟩
    intro hpre c hc
    subst hpre
    have hnil : done = [] := List.prefix_nil.1 hd1
    subst hnil
    rw [hd2] at hc
    simp only [List.filterMap_nil, List.append_nil] at hc
    exact buildPhase_reads supported api c hc
  · intro changes huniq hmem
    obtain ⟨ep, _, r0, hr0, hid⟩ := ApplyChanges_delete_source supported api changes r.Id hmem
    rw [buildPhase_index] at hr0
    obtain ⟨h1, _⟩ := indexOf_some _ _ _ hr0
    rw [hpassed] at h1
    obtain ⟨Z', hZ', hrec, hsup, _⟩ := (mem_visitsOfZones supported S S.zones _).1 h1
    exact huniq Z' hZ' r0 hrec hsup hid

/-- C12 at a concrete input: the `MX` record of `mxSnapshot` has no entry in the
index under its name. -/
theorem unsupported_record_excluded_witness :
    (buildPhase SupportedRecordType mxSnapshot.api).2.1
      { Typ := mxRecord.Typ, Name := "mail.example.de" } = none :=
  (unsupported_record_excluded SupportedRecordType mxSnapshot.api mxSnapshot
    (fun _ _ => ⟨rfl, fun _ => rfl⟩) { Id := "z1", Name := "example.de" } (by decide)
    mxRecord (by decide) (by decide)).2.1 "mail.example.de"

/-- C13: over a gateway that serves a snapshot, `Records` reads the zones and
then the records of each zone, and returns without error one endpoint per record
of a supported type, in zone order and then record order, with the normalized
name, the type, the TTL and the value as only target of the record; and
whatever the gateway, when one of its reads is answered with an error, that read
is the last call and `Records` returns that error and no endpoints. -/
theorem Records_endpoints (supported : String → Bool) (api : hetznerAPI) :
    (∀ S, Serves api S →
      Records supported api =
        (Call.GetAllZones ::
            S.zones.map (fun Z => Call.GetAllRecords { page := none, zone := Z.Id }),
          .ok (S.zones.flatMap (fun Z =>
            ((S.records Z.Id).filter (fun record => supported record.Typ)).map
              (fun record =>
                { DNSName :=
                    if record.Name = "@" then Z.Name else record.Name ++ "." ++ Z.Name,
                  Targets := [record.Value],
                  RecordType := record.Typ,
                  RecordTTL := record.Ttl }))))) ∧
    (∀ pre c post e, (Records supported api).1 = pre ++ c :: post →
      api.failure pre c = some e →
      post = [] ∧ (Records supported api).2 = .error e) := by
  refine ⟨?_, ?_⟩
  · intro S h
    obtain ⟨hpassed, herr⟩ := passed_serves supported h
    rw [Records_eq, herr, hpassed, visitsOfZones_eq_flatMap]
    have htr : (forEachRecordDo supported api collect [] []).1 =
        Call.GetAllZones ::
          S.zones.map (fun Z => Call.GetAllRecords { page := none, zone := Z.Id }) := by
      rw [forEachRecordDo_serves supported h collect []]
    rw [htr]
    simp only [List.map_flatMap, List.map_map]
    rfl
  · intro pre c post e htr hf
    rw [Records_eq] at htr ⊢
    have hend := forEachRecordDo_ended supported api collect [] [] (AllOk_nil api)
    obtain ⟨h1, h2⟩ := hend.failfast htr hf
    refine ⟨h1, ?_⟩
    cases herr : (forEachRecordDo supported api collect [] []).2.2 with
    | none => simp [herr, Outcome.ofError] at h2
    | some e' =>
      simp only [herr, Outcome.ofError, Outcome.err.injEq] at h2
      subst h2
      rfl

/-- C13 at a concrete input: the read path over the provider state of the
test. -/
theorem Records_endpoints_witness :
    Records SupportedRecordType testSnapshot.api =
      (Call.GetAllZones ::
          testSnapshot.zones.map (fun Z => Call.GetAllRecords { page := none, zone := Z.Id }),
        .ok (testSnapshot.zones.flatMap (fun Z =>
          ((testSnapshot.records Z.Id).filter
              (fun record => SupportedRecordType record.Typ)).map
            (fun record =>
              { DNSName :=
                  if record.Name = "@" then Z.Name else record.Name ++ "." ++ Z.Name,
                Targets := [record.Value],
                RecordType := record.Typ,
                RecordTTL := record.Ttl })))) :=
  (Records_endpoints SupportedRecordType testSnapshot.api).1 testSnapshot
    (fun _ _ => ⟨rfl, fun _ => rfl⟩)

/-- C14: for an endpoint with targets `t :: ts`, the call `createEndpoints`
issues for it is `CreateRecord` with the endpoint's RecordType as type and `t`
as value, whatever `ts` is; and the `CreateRecord` calls in a trace of
`ApplyChanges` are, in order, such calls for a prefix of the list the create
phase is given. -/
theorem createEndpoints_call_fields (api : hetznerAPI) :
    (∀ (ep : Endpoint) (t : String) (ts : List String) (rest : List Endpoint) (tr : List Call),
      ep.Targets = t :: ts →
      ∃ tail, (createEndpoints api (ep :: rest) tr).1 =
        tr ++ Call.CreateRecord
          { ZoneId := "", Typ := ep.RecordType, Name := ep.DNSName, Value := t, Ttl := none }
            :: tail) ∧
    (∀ (supported : String → Bool) (changes : Changes),
      ∃ dels attempted creates,
        (ApplyChanges supported api changes).1 =
          (buildPhase supported api).1 ++ dels ++ creates ∧
        (∀ c ∈ (buildPhase supported api).1 ++ dels, Call.isCreate c = false) ∧
        attempted <+: changes.Delete ++ changes.UpdateNew ∧
        List.Forall₂ (fun ep c => ∃ t ts, ep.Targets = t :: ts ∧
          c = Call.CreateRecord
            { ZoneId := "", Typ := ep.RecordType, Name := ep.DNSName, Value := t,
              Ttl := none }) attempted creates) := by
  refine ⟨?_, ?_⟩
  · intro ep t ts rest tr ht
    cases hc : api.CreateRecord tr
        { Typ := ep.RecordType, ZoneId := "", Name := ep.DNSName, Value := t, Ttl := none } with
    | some e => exact ⟨[], by simp [createEndpoints, ht, hc]⟩
    | none =>
      obtain ⟨creates, h1, _⟩ := createEndpoints_trace api rest (tr ++ [Call.CreateRecord
        { Typ := ep.RecordType, ZoneId := "", Name := ep.DNSName, Value := t, Ttl := none }])
      refine ⟨creates, ?_⟩
      simp only [createEndpoints, ht, hc]
      rw [h1]
      simp
  · intro supported changes
    obtain ⟨done, attempted, creates, _, _, h3, h4, h5, _⟩ :=
      ApplyChanges_calls supported api changes
    refine ⟨_, attempted, creates, h5, ?_, h3, h4⟩
    intro c hc
    rcases List.mem_append.1 hc with hc | hc
    · have := buildPhase_reads supported api c hc
      simp only [Call.isMutation, Bool.or_eq_false_iff] at this
      exact this.2
    · obtain ⟨d, _, hd⟩ := List.mem_filterMap.1 hc
      simp only [deleteCall, Option.map_eq_some'] at hd
      obtain ⟨r, _, hr⟩ := hd
      subst hr
      rfl

/-- C14 at a concrete input: an endpoint with two targets is created with the
first one. -/
theorem createEndpoints_call_fields_witness :
    ∃ tail, (createEndpoints testSnapshot.api
        [{ DNSName := "a.example.de", Targets := ["1.1.1.1", "2.2.2.2"], RecordType := "A",
           RecordTTL := 300 }] []).1 =
      [] ++ Call.CreateRecord
        { ZoneId := "", Typ := "A", Name := "a.example.de", Value := "1.1.1.1", Ttl := none }
          :: tail :=
  (createEndpoints_call_fields testSnapshot.api).1
    { DNSName := "a.example.de", Targets := ["1.1.1.1", "2.2.2.2"], RecordType := "A",
      RecordTTL := 300 } "1.1.1.1" ["2.2.2.2"] [] [] rfl

/-- C15 (evaluation): for every client and every ID (with which the URL parses,
as `httpNewRequest` takes it), the request `DeleteRecord` builds has method
`GET` and the URL `.../records?zone_id=<id>`; it is the very request
`GetAllRecords` builds for the zone `<id>`. -/
theorem DeleteRecord_request_is_listing (h : hetznerClient) (id : String) :
    h.DeleteRecord_request id =
        Built.request
          { Method := "GET",
            URL := "https://dns.hetzner.com/api/v1/records?zone_id=" ++ id,
            Header := [("Auth-API-Token", h.token)],
            Body := none } ∧
      h.GetAllRecords_request { page := none, zone := id } =
        .ok { Method := "GET",
              URL := "https://dns.hetzner.com/api/v1/records?zone_id=" ++ id,
              Header := [("Auth-API-Token", h.token)],
              Body := none } :=
  ⟨rfl, rfl⟩

/-- C16 (evaluation): for every configuration, the requests built by the client
of `NewHetznerProvider cfg` carry `Auth-API-Token` with the empty value, not
`cfg.Token`; shown for `buildRequest` and at the configuration with token
`secret`. -/
theorem NewHetznerProvider_token_is_empty (cfg : HetznerConfig) (url method : String)
    (body : Option String) :
    (NewHetznerProvider cfg).client.buildRequest url method body =
        .ok { Method := method, URL := url, Header := [("Auth-API-Token", "")], Body := none } ∧
      (NewHetznerProvider { dryRun := false, Token := "secret" }).client.GetAllZones_request =
        .ok { Method := "GET", URL := "https://dns.hetzner.com/api/v1/zones",
              Header := [("Auth-API-Token", "")], Body := none } :=
  ⟨rfl, rfl⟩

/-- C17 (evaluation): for every client, every parameters and every JSON body
`json.Marshal` returns for them, the request `CreateRecord` builds is a `POST`
to `.../records` with the token and content type headers and without a body:
`buildRequest` drops the body it is given. -/
theorem CreateRecord_request_has_no_body (h : hetznerClient) (p : CreateRecordParams)
    (body : String) :
    h.CreateRecord_request (fun _ => .ok body) p =
        Built.request
          { Method := "POST",
            URL := "https://dns.hetzner.com/api/v1/records",
            Header := [("Auth-API-Token", h.token), ("Content-Type", "application/json")],
            Body := none } ∧
      h.buildRequest "https://dns.hetzner.com/api/v1/records" "POST" (some body) =
        .ok { Method := "POST", URL := "https://dns.hetzner.com/api/v1/records",
              Header := [("Auth-API-Token", h.token)], Body := none } :=
  ⟨rfl, rfl⟩

/-- C18: over a gateway that serves a snapshot in whose walk (zone order, then
record order) a record `r1` is followed by a record `r2` with the same
normalized name and type, `r2` being the last with them, the index maps that
name and type to `r2`; a `Changes` whose first `Delete` endpoint has that name
and type gets `DeleteRecord(r2.Id)` as first mutation call; and when that
endpoint is the whole deletion set, it is the only `DeleteRecord` call, so
`DeleteRecord(r1.Id)` is not called when the IDs differ. -/
theorem index_last_write_wins (supported : String → Bool) (api : hetznerAPI) (S : Snapshot)
    (h : Serves api S) (a b c : List (String × Record)) (n : String) (r1 r2 : Record)
    (hwalk : visitsOfZones supported S S.zones = a ++ (n, r1) :: b ++ (n, r2) :: c)
    (_htyp : r1.Typ = r2.Typ)
    (hlast : ∀ w ∈ c, ¬(w.1 = n ∧ w.2.Typ = r2.Typ)) :
    (buildPhase supported api).2.1 { Typ := r2.Typ, Name := n } = some r2 ∧
    (∀ changes ep rest, changes.Delete = ep :: rest → ep.DNSName = n →
      ep.RecordType = r2.Typ →
      ∃ tail, (ApplyChanges supported api changes).1 =
        (buildPhase supported api).1 ++ Call.DeleteRecord r2.Id :: tail) ∧
    (∀ changes ep, changes.Delete = [ep] → changes.UpdateOld = [] → ep.DNSName = n →
      ep.RecordType = r2.Typ →
      (ApplyChanges supported api changes).1.filter Call.isDelete = [Call.DeleteRecord r2.Id] ∧
      (r1.Id ≠ r2.Id → Call.DeleteRecord r1.Id ∉ (ApplyChanges supported api changes).1)) := by
  obtain ⟨hpassed, herr⟩ := passed_serves supported h
  have hb : (buildPhase supported api).2.2 = none := by
    rw [buildPhase_error, herr]
  have hidx : (buildPhase supported api).2.1 { Typ := r2.Typ, Name := n } = some r2 := by
    rw [buildPhase_index, hpassed, hwalk]
    have := indexOf_last (a ++ (n, r1) :: b) n r2 c hlast
    simpa using this
  have hhead : ∀ changes ep rest, changes.Delete = ep :: rest → ep.DNSName = n →
      ep.RecordType = r2.Typ →
      ∃ done creates, done <+: rest ++ changes.UpdateOld ∧
        (∀ x ∈ creates, Call.isCreate x = true) ∧
        (ApplyChanges supported api changes).1 =
          (buildPhase supported api).1 ++ Call.DeleteRecord r2.Id ::
            done.filterMap (deleteCall (buildPhase supported api).2.1) ++ creates := by
    intro changes ep rest hdel hname htype
    have hk : (buildPhase supported api).2.1 { Typ := ep.RecordType, Name := ep.DNSName } =
        some r2 := by
      rw [hname, htype]
      exact hidx
    obtain ⟨creates, hc1, hc2⟩ := ApplyChanges_after_build supported api changes hb
    obtain ⟨done, hd1, hd2⟩ := deleteDelete_head api (buildPhase supported api).2.1 ep
      (rest ++ changes.UpdateOld) (buildPhase supported api).1 r2 hk
    refine ⟨done, creates, hd1, hc2, ?_⟩
    rw [hc1, hdel, List.cons_append, hd2]
  refine ⟨hidx, ?_, ?_⟩
  · intro changes ep rest hdel hname htype
    obtain ⟨done, creates, _, _, htr⟩ := hhead changes ep rest hdel hname htype
    exact ⟨done.filterMap (deleteCall (buildPhase supported api).2.1) ++ creates, by
      rw [htr]; simp⟩
  · intro changes ep hdel hold hname htype
    obtain ⟨done, creates, hd, hc, htr⟩ := hhead changes ep [] hdel hname htype
    rw [hold] at hd
    have hnil : done = [] := List.prefix_nil.1 (by simpa using hd)
    subst hnil
    have hfilter : (ApplyChanges supported api changes).1.filter Call.isDelete =
        [Call.DeleteRecord r2.Id] := by
      rw [htr]
      simp only [List.filterMap_nil, List.filter_append]
      have e1 : List.filter Call.isDelete (buildPhase supported api).1 = [] :=
        List.filter_eq_nil_iff.2 (fun x hx => by
          have := buildPhase_reads supported api x hx
          simp only [Call.isMutation, Bool.or_eq_false_iff] at this
          simp [this.1])
      have e3 : List.filter Call.isDelete creates = [] :=
        List.filter_eq_nil_iff.2 (fun x hx => by
          have := hc x hx
          cases x <;> simp_all [Call.isCreate, Call.isDelete])
      rw [e1, e3]
      simp [Call.isDelete]
    refine ⟨hfilter, ?_⟩
    intro hne hmem
    have : Call.DeleteRecord r1.Id ∈
        (ApplyChanges supported api changes).1.filter Call.isDelete :=
      List.mem_filter.2 ⟨hmem, rfl⟩
    rw [hfilter] at this
    simp only [List.mem_singleton, Call.DeleteRecord.injEq] at this
    exact hne this

/-- C18 at a concrete input: of the two duplicate `test` records the index holds
the second. -/
theorem index_last_write_wins_witness :
    (buildPhase SupportedRecordType duplicateSnapshot.api).2.1
      { Typ := duplicateSecond.Typ, Name := "test.example.de" } = some duplicateSecond :=
  (index_last_write_wins SupportedRecordType duplicateSnapshot.api duplicateSnapshot
    (fun _ _ => ⟨rfl, fun _ => rfl⟩) [] [] [] "test.example.de" duplicateFirst duplicateSecond
    (by decide) (by decide) (by simp)).1

/-- C19 (evaluation at the failing input): in the `Changes` of the test every
endpoint of `Create` and of `UpdateNew` has a target (there is none), and
`ApplyChanges` ends in a panic: the create phase runs over the `Delete`
endpoint, which has no target. -/
theorem ApplyChanges_panics_despite_targets :
    (∀ ep ∈ testChanges.Create ++ testChanges.UpdateNew, ep.Targets ≠ []) ∧
      (ApplyChanges SupportedRecordType testSnapshot.api testChanges).2 = Outcome.panic :=
  ⟨by decide, by decide⟩

/-- C20: whatever the gateway answers, `ApplyChanges` issues at most
`len(Delete) + len(UpdateOld)` `DeleteRecord` calls, and each uses the ID of a
record the walk of the same invocation has read and passed on, of a supported
type, whose normalized name and type are the DNSName and RecordType of an
endpoint of `Delete` or `UpdateOld`; over a gateway that serves a snapshot, that
record is a record of a zone of the snapshot. -/
theorem ApplyChanges_delete_ids (supported : String → Bool) (api : hetznerAPI)
    (changes : Changes) :
    ((ApplyChanges supported api changes).1.filter Call.isDelete).length ≤
        changes.Delete.length + changes.UpdateOld.length ∧
    (∀ id, Call.DeleteRecord id ∈ (ApplyChanges supported api changes).1 →
      ∃ v ∈ passed supported api, v.2.Id = id ∧ supported v.2.Typ = true ∧
        ∃ ep ∈ changes.Delete ++ changes.UpdateOld,
          ep.DNSName = v.1 ∧ ep.RecordType = v.2.Typ) ∧
    (∀ S, Serves api S →
      ∀ id, Call.DeleteRecord id ∈ (ApplyChanges supported api changes).1 →
        ∃ Z ∈ S.zones, ∃ r ∈ S.records Z.Id, r.Id = id ∧ supported r.Typ = true ∧
          ∃ ep ∈ changes.Delete ++ changes.UpdateOld,
            ep.DNSName = (if r.Name = "@" then Z.Name else r.Name ++ "." ++ Z.Name) ∧
            ep.RecordType = r.Typ) := by
  have hsrc : ∀ id, Call.DeleteRecord id ∈ (ApplyChanges supported api changes).1 →
      ∃ v ∈ passed supported api, v.2.Id = id ∧ supported v.2.Typ = true ∧
        ∃ ep ∈ changes.Delete ++ changes.UpdateOld,
          ep.DNSName = v.1 ∧ ep.RecordType = v.2.Typ := by
    intro id hmem
    obtain ⟨ep, hep, r, hr, hid⟩ := ApplyChanges_delete_source supported api changes id hmem
    rw [buildPhase_index] at hr
    obtain ⟨h1, h2⟩ := indexOf_some _ _ _ hr
    exact ⟨(ep.DNSName, r), h1, hid, passed_supported supported api _ h1, ep, hep, rfl, h2⟩
  refine ⟨?_, hsrc, ?_⟩
  · obtain ⟨done, attempted, creates, h1, _, _, h4, h5, _⟩ :=
      ApplyChanges_calls supported api changes
    rw [h5, List.filter_append, List.filter_append]
    have e1 : List.filter Call.isDelete (buildPhase supported api).1 = [] :=
      List.filter_eq_nil_iff.2 (fun x hx => by
        have := buildPhase_reads supported api x hx
        simp only [Call.isMutation, Bool.or_eq_false_iff] at this
        simp [this.1])
    have e3 : List.filter Call.isDelete creates = [] :=
      List.filter_eq_nil_iff.2 (fun x hx => by
        have := isCreate_of_forall₂ h4 x hx
        cases x <;> simp_all [Call.isCreate, Call.isDelete])
    rw [e1, e3]
    simp only [List.nil_append, List.append_nil]
    calc (List.filter Call.isDelete
            (done.filterMap (deleteCall (buildPhase supported api).2.1))).length
        ≤ (done.filterMap (deleteCall (buildPhase supported api).2.1)).length :=
          List.length_filter_le _ _
      _ ≤ done.length := List.length_filterMap_le _ _
      _ ≤ (changes.Delete ++ changes.UpdateOld).length := h1.length_le
      _ = changes.Delete.length + changes.UpdateOld.length := List.length_append _ _
  · intro S h id hmem
    obtain ⟨v, hv, hid, hsup, ep, hep, hn, ht⟩ := hsrc id hmem
    rw [(passed_serves supported h).1] at hv
    obtain ⟨Z, hZ, hrec, _, hname⟩ := (mem_visitsOfZones supported S S.zones v).1 hv
    exact ⟨Z, hZ, v.2, hrec, hid, hsup, ep, hep, by rw [hn, hname], ht⟩

/-- C20 at a concrete input: the update in place of `test.example.de` deletes
the record with ID `id-to-delete`, a record of the zone `example.de`. -/
theorem ApplyChanges_delete_ids_witness :
    ∃ Z ∈ testSnapshot.zones, ∃ r ∈ testSnapshot.records Z.Id,
      r.Id = "id-to-delete" ∧ SupportedRecordType r.Typ = true ∧
        ∃ ep ∈ updateChanges.Delete ++ updateChanges.UpdateOld,
          ep.DNSName = (if r.Name = "@" then Z.Name else r.Name ++ "." ++ Z.Name) ∧
          ep.RecordType = r.Typ :=
  (ApplyChanges_delete_ids SupportedRecordType testSnapshot.api updateChanges).2.2 testSnapshot
    (fun _ _ => ⟨rfl, fun _ => rfl⟩) "id-to-delete" (by decide)

end Hetzner
